import Mathlib

/-!
# Gomas Legal Engine — verification of the ingestion pipeline and retrieval engine

Shallow embedding of the core of the `gomas-legal-engine` repository:
the SQLite document registry with its FTS5 mirror (`database.py`), the
ingestion pipeline with retry/dead-letter handling (`main.py`), the
context-assembly / truncation logic of the search engine
(`search_engine.py`), the tree-guided extraction of the query engine
(`query_engine.py`) and the LLM prompt cache (`llm_utils.py`).

External effects (filesystem, OCR service, classifier, indexer, LLM) are
parameters of the embedding; the SQLite tables are modelled as lists of
rows, with the FTS5 triggers of `init_db` applied on every mutation of
the `documentos` table.
-/

namespace Gomas

/-- A row of the `documentos` table (schema in `database.py`, `init_db`).
`REAL` is modelled by `Rat`, `DATETIME` by abstract `Nat` instants,
nullable columns by `Option`. -/
structure Document where
  id : Nat
  nombre_archivo : String
  ruta_pdf : String
  hash_sha256 : String
  estado : String
  tipo_documento : Option String
  confianza : Option Rat
  requiere_revision : Nat
  paginas : Option Nat
  fecha_recibido : Option Nat
  fecha_indexado : Option Nat
  error_mensaje : Option String
  ocr_path : Option String
  ocr_json_path : Option String
  etiquetas : Option String
  entidades : Option String
  resumen : Option String
  norm_path : Option String
  texto_ocr : Option String
deriving Repr, DecidableEq

/-- A row of the `job_queue` table (`database.py`, `init_db`). -/
structure Job where
  id : Nat
  doc_id : Nat
  intentos : Nat
  estado : String
  ultimo_error : Option String
  created_at : Nat
  updated_at : Nat
deriving Repr, DecidableEq

/-- A row of the `documentos_fts` FTS5 virtual table: the rowid plus the
six indexed text columns (`init_db`). -/
structure FtsRow where
  rowid : Nat
  nombre_archivo : String
  tipo_documento : String
  etiquetas : String
  resumen : String
  entidades : String
  texto_ocr : String
deriving Repr, DecidableEq

/-- Projection of a document row into its FTS entry, with the
`COALESCE(·,'')` of the triggers in `init_db`. -/
def ftsProj (d : Document) : FtsRow :=
  { rowid := d.id
    nombre_archivo := d.nombre_archivo
    tipo_documento := d.tipo_documento.getD ""
    etiquetas := d.etiquetas.getD ""
    resumen := d.resumen.getD ""
    entidades := d.entidades.getD ""
    texto_ocr := d.texto_ocr.getD "" }

/-- The mutable database state: the `documentos` table with its
AUTOINCREMENT counter, the FTS5 mirror, and the `job_queue` table with
its AUTOINCREMENT counter. -/
structure DBState where
  documentos : List Document
  nextDocId : Nat
  fts : List FtsRow
  jobs : List Job
  nextJobId : Nat
deriving Repr, DecidableEq

/-- State right after `init_db` on a fresh database: all tables empty,
AUTOINCREMENT counters at 1. -/
def initialState : DBState :=
  { documentos := [], nextDocId := 1, fts := [], jobs := [], nextJobId := 1 }

/-- Python truthiness of an `Optional[str]` (`if error_msg:`). -/
def truthyStr : Option String → Bool
  | some s => s ≠ ""
  | none => false

/-- `INSERT INTO documentos` together with the `documentos_ai` AFTER
INSERT trigger of `init_db`, which inserts the FTS projection. -/
def insertDocRow (db : DBState) (d : Document) : DBState :=
  { db with documentos := db.documentos ++ [d], fts := db.fts ++ [ftsProj d] }

/-- `UPDATE documentos SET ... WHERE id = docId` together with the
`documentos_au` AFTER UPDATE trigger of `init_db`: for the updated row,
the old FTS entry is deleted (FTS5 `'delete'` command on its rowid) and
the projection of the new row is inserted. -/
def updateDocRow (db : DBState) (docId : Nat) (g : Document → Document) : DBState :=
  match db.documentos.find? (fun d => d.id = docId) with
  | none => db
  | some old =>
      { db with
        documentos := db.documentos.map (fun d => if d.id = docId then g d else d)
        fts := (db.fts.filter (fun r => r.rowid ≠ old.id)) ++ [ftsProj (g old)] }

/-- `DELETE FROM documentos WHERE id = docId` together with the
`documentos_ad` AFTER DELETE trigger, which removes the FTS entry of
each deleted row. -/
def deleteDocRow (db : DBState) (docId : Nat) : DBState :=
  { db with
    documentos := db.documentos.filter (fun d => d.id ≠ docId)
    fts := if db.documentos.any (fun d => d.id = docId) then
             db.fts.filter (fun r => r.rowid ≠ docId)
           else db.fts }

/-- `database.get_document_by_hash`. -/
def get_document_by_hash (db : DBState) (h : String) : Option Document :=
  db.documentos.find? (fun d => d.hash_sha256 = h)

/-- `database.register_document`: the INSERT succeeds iff no row with
this hash exists (`hash_sha256` is UNIQUE, a duplicate raises
`IntegrityError`); in that case the existing row's id is returned and no
row is created.  Returns the id together with the new state. -/
def register_document (db : DBState) (filename filepath fileHash : String)
    (now : Nat) : Nat × DBState :=
  match get_document_by_hash db fileHash with
  | some d => (d.id, db)
  | none =>
      let d : Document :=
        { id := db.nextDocId
          nombre_archivo := filename
          ruta_pdf := filepath
          hash_sha256 := fileHash
          estado := "recibido"
          tipo_documento := none
          confianza := none
          requiere_revision := 0
          paginas := none
          fecha_recibido := some now
          fecha_indexado := none
          error_mensaje := none
          ocr_path := none
          ocr_json_path := none
          etiquetas := none
          entidades := none
          resumen := none
          norm_path := none
          texto_ocr := none }
      (db.nextDocId, { insertDocRow db d with nextDocId := db.nextDocId + 1 })

/-- `database.update_document_status`: sets `estado`, and sets
`error_mensaje` when the message is truthy, clearing it to NULL
otherwise. -/
def update_document_status (db : DBState) (docId : Nat) (status : String)
    (errorMsg : Option String) : DBState :=
  updateDocRow db docId (fun d =>
    if truthyStr errorMsg then
      { d with estado := status, error_mensaje := errorMsg }
    else
      { d with estado := status, error_mensaje := none })

/-- `database.update_document_classification`: the tag list and entity
bundle arrive already JSON-encoded (`json.dumps` is external
serialization). -/
def update_document_classification (db : DBState) (docId : Nat) (tipo : String)
    (confianza : Rat) (etiquetas : String) (requiere : Bool)
    (entidades : String) : DBState :=
  updateDocRow db docId (fun d =>
    { d with
      tipo_documento := some tipo
      confianza := some confianza
      etiquetas := some etiquetas
      requiere_revision := if requiere then 1 else 0
      entidades := some entidades
      estado := "clasificado" })

/-- `database.update_ocr_data` (`texto_ocr or ""` stores the empty
string when the argument is `None` or empty). -/
def update_ocr_data (db : DBState) (docId : Nat) (ocrPath ocrJsonPath : String)
    (pages : Nat) (textoOcr : Option String) : DBState :=
  updateDocRow db docId (fun d =>
    { d with
      ocr_path := some ocrPath
      ocr_json_path := some ocrJsonPath
      paginas := some pages
      texto_ocr := some (textoOcr.getD "")
      estado := "ocr_ok" })

/-- `database.update_norm_path`. -/
def update_norm_path (db : DBState) (docId : Nat) (normPath : String) : DBState :=
  updateDocRow db docId (fun d =>
    { d with norm_path := some normPath, estado := "normalizado" })

/-- `database.update_indexed`: sets `estado='indexado'`,
`fecha_indexado=datetime('now')` and `resumen = (resumen or '')`. -/
def update_indexed (db : DBState) (docId : Nat) (resumen : Option String)
    (now : Nat) : DBState :=
  updateDocRow db docId (fun d =>
    { d with
      estado := "indexado"
      fecha_indexado := some now
      resumen := some (resumen.getD "") })

/-- `database.delete_document`; the boolean is `rowcount > 0`. -/
def delete_document (db : DBState) (docId : Nat) : DBState × Bool :=
  (deleteDocRow db docId, db.documentos.any (fun d => d.id = docId))

/-- `database.enqueue_job`: inserts a `'pending'` job row for the
document and returns its id. -/
def enqueue_job (db : DBState) (docId : Nat) (now : Nat) : Nat × DBState :=
  (db.nextJobId,
    { db with
      jobs := db.jobs ++
        [{ id := db.nextJobId, doc_id := docId, intentos := 0,
           estado := "pending", ultimo_error := none,
           created_at := now, updated_at := now }]
      nextJobId := db.nextJobId + 1 })

/-- `database.mark_job_done`. -/
def mark_job_done (db : DBState) (jobId : Nat) (now : Nat) : DBState :=
  { db with
    jobs := db.jobs.map (fun j =>
      if j.id = jobId then { j with estado := "done", updated_at := now } else j) }

/-- `database.mark_job_failed`: bumps the attempt counter and moves the
job to `'failed'` once attempts reach `MAX_RETRIES`, else back to
`'pending'`.  (Defined in `database.py`; no caller in the repository
invokes it.)  Returns the new state and whether the job went to
`'failed'`. -/
def mark_job_failed (db : DBState) (jobId : Nat) (error : String)
    (maxRetries : Nat) (now : Nat) : DBState × Bool :=
  let intentos := (match db.jobs.find? (fun j => j.id = jobId) with
    | some j => j.intentos
    | none => 0) + 1
  let newEstado := if intentos ≥ maxRetries then "failed" else "pending"
  ({ db with
     jobs := db.jobs.map (fun j =>
       if j.id = jobId then
         { j with estado := newEstado, intentos := intentos,
                  ultimo_error := some error, updated_at := now }
       else j) },
   newEstado = "failed")

/-- `database.add_to_dead_letter`: sets the document to `'error'` with
the reason, then moves the document's jobs *that are in state
`'failed'`* to `'dead_letter'`. -/
def add_to_dead_letter (db : DBState) (docId : Nat) (reason : String)
    (now : Nat) : DBState :=
  let db := update_document_status db docId "error" (some reason)
  { db with
    jobs := db.jobs.map (fun j =>
      if j.doc_id = docId ∧ j.estado = "failed" then
        { j with estado := "dead_letter", ultimo_error := some reason,
                 updated_at := now }
      else j) }

/-! ## Ingestion pipeline (`main.py`)

One pipeline attempt (`_run_pipeline`) is a sequence of externally
effectful stages; the outcome of each external call is supplied by a
`PipelineEnv`.  A raised exception is an `Except.error` carrying the
exception message; database mutations performed before the failure
persist. -/

/-- Result of `classifier.classify_document` (tag list and entity bundle
as their JSON encodings). -/
structure ClassifyResult where
  tipo : String
  confianza : Rat
  etiquetas : String
  requiere_revision : Bool
  entidades : String
deriving Repr, DecidableEq

/-- Result of `ocr_service.process_pdf_ocr`, plus the filesystem facts
the pipeline consults afterwards (`os.path.exists(md_path)` and the
contents of the Markdown file). -/
structure OcrResult where
  md_path : String
  json_path : String
  pages : Nat
  md_exists : Bool
  raw_text : String
deriving Repr, DecidableEq

/-- Environment of one pipeline attempt: outcomes of the stabilization
wait, the magic-byte check, and each external stage, plus the
`FORCE_INDEXING` configuration flag and the current time. -/
structure PipelineEnv where
  stabilizes : Bool
  validPdf : Bool
  ocr : Except String OcrResult
  normText : String → String
  classify : String → Except String ClassifyResult
  indexResult : Except String String
  forceIndexing : Bool
  now : Nat

instance : DecidableEq (Except String Unit) := fun a b =>
  match a, b with
  | .error x, .error y =>
      if h : x = y then isTrue (congrArg Except.error h)
      else isFalse (fun hh => h (Except.error.inj hh))
  | .error _, .ok _ => isFalse (fun hh => Except.noConfusion hh)
  | .ok _, .error _ => isFalse (fun hh => Except.noConfusion hh)
  | .ok x, .ok y => isTrue (congrArg Except.ok (Subsingleton.elim x y))

/-- Final database state of one pipeline attempt together with its
outcome (`Except.error` = the exception that aborted the attempt). -/
structure RunOutcome where
  db : DBState
  result : Except String Unit
deriving Repr, DecidableEq

/-- Steps 4-8 of `_run_pipeline`: enqueue a job, move the file to the
staging area, then OCR → normalize → classify (→ review queue, or →
index).  The normalized path is `norm_<basename>` under
`NORMALIZED_DIR`; paths are opaque strings here. -/
def runStages (env : PipelineEnv) (docId : Nat) (db : DBState) : RunOutcome :=
  let (jobId, db) := enqueue_job db docId env.now
  match env.ocr with
  | .error m => ⟨db, .error m⟩
  | .ok o =>
    let db := update_ocr_data db docId o.md_path o.json_path o.pages none
    if o.md_path = "" ∨ o.md_exists = false then
      ⟨db, .error ("OCR Markdown missing: " ++ o.md_path)⟩
    else
      let cleanText := env.normText o.raw_text
      let db := update_norm_path db docId ("norm_" ++ o.md_path)
      match env.classify cleanText with
      | .error m => ⟨db, .error m⟩
      | .ok c =>
        let db := update_document_classification db docId c.tipo c.confianza
                    c.etiquetas c.requiere_revision c.entidades
        if c.requiere_revision ∧ env.forceIndexing = false then
          ⟨mark_job_done db jobId env.now, .ok ()⟩
        else
          match env.indexResult with
          | .error m => ⟨db, .error m⟩
          | .ok _ =>
            let db := update_indexed db docId none env.now
            ⟨mark_job_done db jobId env.now, .ok ()⟩

/-- `_run_pipeline` for one PDF: stabilization, magic-byte validation,
hash deduplication (skip if already `'indexado'`, reuse the id if a row
exists in another state, register otherwise), then the staged pipeline. -/
def runPipeline (env : PipelineEnv) (filename filepath fileHash : String)
    (db : DBState) : RunOutcome :=
  if env.stabilizes = false then
    ⟨db, .error ("File " ++ filename ++ " did not stabilize.")⟩
  else if env.validPdf = false then
    ⟨db, .error ("File " ++ filename ++ " is not a valid PDF (bad magic bytes).")⟩
  else
    match get_document_by_hash db fileHash with
    | some existing =>
        if existing.estado = "indexado" then ⟨db, .ok ()⟩
        else runStages env existing.id db
    | none =>
        let (docId, db) := register_document db filename filepath fileHash env.now
        runStages env docId db

/-- The outcome of the staged part of one pipeline attempt as a
function of the environment alone: the stage control flow of
`_run_pipeline` never consults the database. -/
def stagesOutcome (env : PipelineEnv) : Except String Unit :=
  match env.ocr with
  | .error m => .error m
  | .ok o =>
    if o.md_path = "" ∨ o.md_exists = false then
      .error ("OCR Markdown missing: " ++ o.md_path)
    else
      match env.classify (env.normText o.raw_text) with
      | .error m => .error m
      | .ok c =>
        if c.requiere_revision ∧ env.forceIndexing = false then .ok ()
        else
          match env.indexResult with
          | .error m => .error m
          | .ok _ => .ok ()

/-- The outcome of one pipeline attempt as a function of the environment
alone: the control flow of `_run_pipeline` never depends on the database
contents except for the `'indexado'` early-skip. -/
def pipelineOutcome (env : PipelineEnv) (filename : String) : Except String Unit :=
  if env.stabilizes = false then
    .error ("File " ++ filename ++ " did not stabilize.")
  else if env.validPdf = false then
    .error ("File " ++ filename ++ " is not a valid PDF (bad magic bytes).")
  else stagesOutcome env

/-- Result of `process_document_sync`: final database state, number of
pipeline attempts actually made, the back-off sleeps performed between
attempts (in seconds), and whether the pipeline eventually succeeded. -/
structure SyncResult where
  db : DBState
  attempts : Nat
  sleeps : List Nat
  succeeded : Bool
deriving Repr, DecidableEq

/-- The retry loop of `process_document_sync`, indexed by the number of
remaining loop iterations (`attempt = maxRetries - rem`).  On the last
failed attempt the file is moved to the dead-letter directory (a
filesystem effect; the moved bytes still hash to `fileHash`) and
`add_to_dead_letter` records the error on the document found by hash. -/
def processAux (envs : Nat → PipelineEnv) (filename filepath fileHash : String)
    (maxRetries : Nat) : Nat → DBState → List Nat → SyncResult
  | 0, db, sleeps => ⟨db, 0, sleeps, false⟩
  | rem + 1, db, sleeps =>
    let attempt := maxRetries - (rem + 1)
    let out := runPipeline (envs attempt) filename filepath fileHash db
    match out.result with
    | .ok _ => ⟨out.db, attempt + 1, sleeps, true⟩
    | .error msg =>
      if rem > 0 then
        processAux envs filename filepath fileHash maxRetries rem out.db
          (sleeps ++ [2 ^ attempt])
      else
        let db' := match get_document_by_hash out.db fileHash with
          | some d => add_to_dead_letter out.db d.id msg (envs attempt).now
          | none => out.db
        ⟨db', maxRetries, sleeps, false⟩

/-- `main.process_document_sync`: up to `MAX_RETRIES` pipeline attempts
with exponential back-off, then dead-lettering. -/
def processDocumentSync (envs : Nat → PipelineEnv)
    (filename filepath fileHash : String) (maxRetries : Nat)
    (db : DBState) : SyncResult :=
  processAux envs filename filepath fileHash maxRetries maxRetries db []

/-! ## Context assembly and truncation (`search_engine.py`) -/

/-- Python `str.rfind`: the greatest index at which `sub` occurs in `s`,
or `-1` when it does not occur (searching positions `0 .. s.length`,
so `rfind` of the empty pattern is `s.length`). -/
def pyRfind (s sub : List Char) : Int :=
  match ((List.range (s.length + 1)).filter
      (fun i => sub.isPrefixOf (s.drop i))).getLast? with
  | some i => (i : Int)
  | none => -1

/-- The global character budget (`MAX_CONTEXT_CHARS = 180_000`, also the
`MAX_FULL` threshold of `_build_context_for_doc`). -/
def MAX_CONTEXT_CHARS : Nat := 180000

/-- The truncation marker appended by `SearchEngine.query`. -/
def TRUNC_MARKER : List Char := "\n\n[CONTEXTO TRUNCADO]".data

/-- The budget-enforcement step of `SearchEngine.query`: if the
assembled context exceeds the budget, cut it at the budget, move the cut
back to the last `"\n\n"` or `"\n==="` occurrence when one starts after
the half-budget point, and append the truncation marker. -/
def truncateContext (fullContext : List Char) : List Char :=
  if fullContext.length > MAX_CONTEXT_CHARS then
    let truncated := fullContext.take MAX_CONTEXT_CHARS
    let lastBreak := max (pyRfind truncated "\n\n".data)
                         (pyRfind truncated "\n===".data)
    let truncated :=
      if lastBreak > ((MAX_CONTEXT_CHARS : Int) / 2) then
        truncated.take lastBreak.toNat
      else truncated
    truncated ++ TRUNC_MARKER
  else fullContext

/-- Result of `SearchEngine.query`, with a flag recording whether the
external language-model service was invoked. -/
structure QueryResult where
  answer : String
  sources : List String
  llmCalled : Bool
deriving Repr, DecidableEq

/-- The answer prompt built by `SearchEngine.query`. -/
def answerPrompt (fullContext queryStr : String) : String :=
  "Eres un asistente jurídico experto. Responde la pregunta del usuario " ++
  "basándote ÚNICAMENTE en los resúmenes de documentos legales proporcionados.\n" ++
  "Si la respuesta no está en los documentos, indícalo claramente.\n\n" ++
  "DOCUMENTOS:\n" ++ fullContext ++ "\n\n" ++
  "PREGUNTA DEL USUARIO:\n" ++ queryStr ++ "\n\n" ++
  "RESPUESTA:"

/-- `SearchEngine.query`.  `indices` is the list of document ids in the
in-memory index cache; `ftsResult` the outcome of
`database.fts_search` on the query (an exception falls back to all
cached ids); `buildCtx` is `_build_context_for_doc`; `llm` is
`llm_utils.generate_completion` for the final prompt (an empty string
models the no-key / exhausted-retries fallback). -/
def searchQuery (indices : List String)
    (ftsResult : Except String (List String))
    (buildCtx : String → String) (llm : String → String)
    (queryStr : String) (docIds : Option (List String)) : QueryResult :=
  let targetIds :=
    match docIds with
    | some (i :: is) => i :: is
    | _ =>
        match ftsResult with
        | .ok r => r
        | .error _ => indices
  let targetIds := if targetIds = [] then indices else targetIds
  let step := fun (acc : List String × List String) (did : String) =>
    if indices.contains did then
      let ctx := buildCtx did
      if ctx ≠ "" then
        (acc.1 ++ ["=== Documento " ++ did ++ " ===\n" ++ ctx], acc.2 ++ [did])
      else acc
    else acc
  let parts := targetIds.foldl step ([], [])
  if parts.1 = [] then
    { answer := "No hay documentos indexados disponibles para responder."
      sources := []
      llmCalled := false }
  else
    let fullContext := String.intercalate "\n\n" parts.1
    let fullContext := String.mk (truncateContext fullContext.data)
    let answer := llm (answerPrompt fullContext queryStr)
    { answer := if answer ≠ "" then answer else "No se pudo generar respuesta."
      sources := parts.2
      llmCalled := true }

/-! ## Tree-guided extraction (`query_engine.py`) -/

/-- A node of a PageIndex section tree: `node_id`, `line_num` (both may
be missing in the raw JSON) and the ordered children under the
`"nodes"` key. -/
inductive SectionNode where
  | node (node_id : Option String) (line_num : Option Nat)
         (nodes : List SectionNode)
deriving Repr

/-- Python dict assignment on an association list: overwrite in place if
the key exists, append otherwise. -/
def dictInsert (m : List (String × Option Nat)) (k : String)
    (v : Option Nat) : List (String × Option Nat) :=
  if m.any (fun e => e.1 = k) then
    m.map (fun e => if e.1 = k then (k, v) else e)
  else m ++ [(k, v)]

mutual

/-- The `traverse` helper of `_extract_text_for_nodes`: pre-order walk
recording `node_id → line_num` for every node whose `node_id` is truthy
(present and non-empty). -/
def buildNodeMapOne (n : SectionNode)
    (m : List (String × Option Nat)) : List (String × Option Nat) :=
  match n with
  | .node nid line children =>
      let m := match nid with
        | some s => if s ≠ "" then dictInsert m s line else m
        | none => m
      buildNodeMapList children m

def buildNodeMapList (ns : List SectionNode)
    (m : List (String × Option Nat)) : List (String × Option Nat) :=
  match ns with
  | [] => m
  | n :: rest => buildNodeMapList rest (buildNodeMapOne n m)

end

/-- The loop `for s in all_starts: if s > line_num: next_start = s;
break` over the sorted start list. -/
def firstGreater (allStarts : List Nat) (l : Nat) : Option Nat :=
  allStarts.find? (fun s => l < s)

/-- End index (0-based, exclusive) of a node's chunk before the 500-line
cap: one less than the next start line, or the end of the file. -/
def endLineIdx (numLines : Nat) (allStarts : List Nat) (lineNum : Nat) : Nat :=
  match firstGreater allStarts lineNum with
  | some s => s - 1
  | none => numLines

/-- The per-node slice of `_extract_text_for_nodes`:
`lines[line_num - 1 : end]` with the end index capped at 500 lines past
the start. -/
def chunkLines (lines : List String) (allStarts : List Nat)
    (lineNum : Nat) : List String :=
  let startIdx := lineNum - 1
  let e := endLineIdx lines.length allStarts lineNum
  let e := if e - startIdx > 500 then startIdx + 500 else e
  (lines.take e).drop startIdx

/-- `QueryEngine._extract_text_for_nodes`: flatten the tree into the
node map, sort all known start lines, and concatenate the chunk of each
selected node id (ids missing from the map are skipped; a node whose
`line_num` is `None` makes the Python code raise a `TypeError`, modelled
as `Except.error`). -/
def extractTextForNodes (nodeIds : List String)
    (structureNodes : List SectionNode) (lines : List String) :
    Except String String :=
  let nodeMap := buildNodeMapList structureNodes []
  let allStarts := (nodeMap.filterMap (fun e => e.2)).mergeSort (· ≤ ·)
  let chunks := nodeIds.foldlM (fun (acc : List String) nid =>
    match nodeMap.find? (fun e => e.1 = nid) with
    | none => Except.ok acc
    | some (_, none) => Except.error "TypeError: line_num is None"
    | some (_, some l) =>
        Except.ok (acc ++
          ["--- Node " ++ nid ++ " ---\n" ++
           String.join (chunkLines lines allStarts l)])) []
  chunks.map (String.intercalate "\n\n")

/-! ## LLM prompt cache (`llm_utils.py`) -/

/-- `_cache_key`: the digest (MD5 in the source, an arbitrary digest
function here) of the first 400 characters of the prompt. -/
def cacheKey (digest : List Char → String) (prompt : List Char) : String :=
  digest (prompt.take 400)

/-- `_get_cached`. -/
def getCached (digest : List Char → String) (cache : List (String × String))
    (prompt : List Char) : Option String :=
  (cache.find? (fun e => e.1 = cacheKey digest prompt)).map (fun e => e.2)

/-- `_set_cached`: evict the oldest entry when the cache is full, then
dict-assign the key. -/
def setCached (digest : List Char → String) (cache : List (String × String))
    (prompt : List Char) (result : String) : List (String × String) :=
  let key := cacheKey digest prompt
  let cache := if cache.length ≥ 256 then cache.drop 1 else cache
  if cache.any (fun e => e.1 = key) then
    cache.map (fun e => if e.1 = key then (key, result) else e)
  else cache ++ [(key, result)]

/-- `generate_completion` restricted to its cache behaviour: without a
valid API key it returns `""`; with `use_cache` a hit short-circuits the
API call; `apiResult = none` models an API call that fails permanently
(the code returns `""` without caching).  Returns the answer and the
cache afterwards. -/
def generateCompletion (digest : List Char → String) (validKey : Bool)
    (cache : List (String × String)) (prompt : List Char) (useCache : Bool)
    (apiResult : Option String) : String × List (String × String) :=
  if validKey = false then ("", cache)
  else if useCache then
    match getCached digest cache prompt with
    | some r => (r, cache)
    | none =>
        match apiResult with
        | some r => (r, setCached digest cache prompt r)
        | none => ("", cache)
  else
    match apiResult with
    | some r => (r, cache)
    | none => ("", cache)

/-- `PageIndex_LLM_Adapter`: always calls `generate_completion` with
`use_cache=True`. -/
def pageIndexAdapter (digest : List Char → String) (validKey : Bool)
    (cache : List (String × String)) (prompt : List Char)
    (apiResult : Option String) : String × List (String × String) :=
  generateCompletion digest validKey cache prompt true apiResult

/-! ## The document-table mutations as an operation language (for the
index-consistency invariant) -/

/-- The write operations `database.py` performs on the `documentos`
table: registration (insert), the five field-update functions, and
deletion. -/
inductive RegOp where
  | register (filename filepath fileHash : String) (now : Nat)
  | setStatus (docId : Nat) (status : String) (errorMsg : Option String)
  | setClassification (docId : Nat) (tipo : String) (conf : Rat)
      (etiquetas : String) (req : Bool) (entidades : String)
  | setOcr (docId : Nat) (ocrPath ocrJsonPath : String) (pages : Nat)
      (texto : Option String)
  | setNormPath (docId : Nat) (p : String)
  | setIndexed (docId : Nat) (resumen : Option String) (now : Nat)
  | delete (docId : Nat)

/-- Apply one registry operation. -/
def applyOp (db : DBState) : RegOp → DBState
  | .register fn fp h now => (register_document db fn fp h now).2
  | .setStatus i s e => update_document_status db i s e
  | .setClassification i t c et r en =>
      update_document_classification db i t c et r en
  | .setOcr i p jp pg tx => update_ocr_data db i p jp pg tx
  | .setNormPath i p => update_norm_path db i p
  | .setIndexed i r now => update_indexed db i r now
  | .delete i => (delete_document db i).1

/-- Apply a sequence of registry operations. -/
def applyOps (ops : List RegOp) (db : DBState) : DBState := ops.foldl applyOp db

/-- Well-formedness of the `documentos` table: ids are below the
AUTOINCREMENT counter and pairwise distinct. -/
def DocsOk (db : DBState) : Prop :=
  (∀ d ∈ db.documentos, d.id < db.nextDocId) ∧
  db.documentos.Pairwise (fun a b => a.id ≠ b.id)

/-- The FTS5 mirror agrees with the `documentos` table rowid by rowid. -/
def FtsSync (db : DBState) : Prop :=
  ∀ i, db.fts.filter (fun r => r.rowid = i) =
       (db.documentos.filter (fun d => d.id = i)).map ftsProj

theorem ftsProj_rowid (d : Document) : (ftsProj d).rowid = d.id := rfl

theorem filter_eq_single_of_mem (l : List Document) (d : Document)
    (hp : l.Pairwise (fun a b => a.id ≠ b.id)) (hd : d ∈ l) :
    l.filter (fun x => x.id = d.id) = [d] := by
  induction l with
  | nil => simp at hd
  | cons a t ih =>
    rcases List.pairwise_cons.mp hp with ⟨ha, ht⟩
    rcases List.mem_cons.mp hd with rfl | hdt
    · rw [List.filter_cons_of_pos (by simp)]
      have : t.filter (fun x => x.id = d.id) = [] :=
        List.filter_eq_nil_iff.mpr (fun b hb => by
          simpa using (ha b hb).symm)
      rw [this]
    · have hne : a.id ≠ d.id := ha d hdt
      rw [List.filter_cons_of_neg (by simpa using hne), ih ht hdt]

theorem find?_eq_some_of_mem (l : List Document) (d : Document)
    (hp : l.Pairwise (fun a b => a.id ≠ b.id)) (hd : d ∈ l) :
    l.find? (fun x => x.id = d.id) = some d := by
  induction l with
  | nil => simp at hd
  | cons a t ih =>
    rcases List.pairwise_cons.mp hp with ⟨ha, ht⟩
    rcases List.mem_cons.mp hd with rfl | hdt
    · rw [List.find?_cons_of_pos _ (by simp)]
    · rw [List.find?_cons_of_neg _ (by simpa using ha d hdt), ih ht hdt]

theorem filter_map_if (l : List Document) (p : Document → Bool)
    (f : Document → Document) (hpf : ∀ d, p (f d) = p d) :
    (l.map f).filter p = (l.filter p).map f := by
  induction l with
  | nil => rfl
  | cons a t ih =>
    simp only [List.map_cons, List.filter_cons, hpf, ih]
    by_cases h : p a = true <;> simp [h]

theorem filter_key_filter_ne {α : Type} (key : α → Nat) (l : List α)
    (i j : Nat) (hij : j ≠ i) :
    (l.filter (fun x => key x ≠ i)).filter (fun x => key x = j) =
    l.filter (fun x => key x = j) := by
  induction l with
  | nil => rfl
  | cons a t ih =>
    by_cases h2 : key a = i
    · rw [List.filter_cons_of_neg (by simp [h2]),
        List.filter_cons_of_neg (by simp [h2]; omega), ih]
    · rw [List.filter_cons_of_pos (by simp [h2])]
      by_cases h : key a = j
      · rw [List.filter_cons_of_pos (by simp [h]),
          List.filter_cons_of_pos (by simp [h]), ih]
      · rw [List.filter_cons_of_neg (by simp [h]),
          List.filter_cons_of_neg (by simp [h]), ih]

theorem filter_filter_ne (l : List FtsRow) (i j : Nat) (hij : j ≠ i) :
    (l.filter (fun r => r.rowid ≠ i)).filter (fun r => r.rowid = j) =
    l.filter (fun r => r.rowid = j) :=
  filter_key_filter_ne (fun r => r.rowid) l i j hij

/-- `updateDocRow` preserves well-formedness and the FTS mirror
invariant, for any id-preserving row transformation. -/
theorem updateDocRow_inv (db : DBState) (i : Nat) (g : Document → Document)
    (hg : ∀ d, (g d).id = d.id) (hok : DocsOk db) (hs : FtsSync db) :
    DocsOk (updateDocRow db i g) ∧ FtsSync (updateDocRow db i g) := by
  unfold updateDocRow
  cases hf : db.documentos.find? (fun d => d.id = i) with
  | none => exact ⟨hok, hs⟩
  | some old =>
    have hold_mem : old ∈ db.documentos := List.mem_of_find?_eq_some hf
    have hold_id : old.id = i := by
      have := List.find?_some hf; simpa using this
    subst hold_id
    have hfilter_i : db.documentos.filter (fun d => d.id = old.id) = [old] :=
      filter_eq_single_of_mem db.documentos old hok.2 hold_mem
    have hupd_id : ∀ d : Document,
        (if d.id = old.id then g d else d).id = d.id := by
      intro d; by_cases h : d.id = old.id <;> simp [h, hg]
    constructor
    · constructor
      · intro d hd
        simp only [List.mem_map] at hd
        obtain ⟨d₀, hd₀, rfl⟩ := hd
        rw [hupd_id]
        exact hok.1 d₀ hd₀
      · rw [List.pairwise_map]
        exact hok.2.imp (fun {a b} h => by rw [hupd_id, hupd_id]; exact h)
    · intro j
      simp only [List.filter_append]
      by_cases hj : j = old.id
      · subst hj
        have h1 : (db.fts.filter (fun r => r.rowid ≠ old.id)).filter
            (fun r => r.rowid = old.id) = [] := by
          apply List.filter_eq_nil_iff.mpr
          intro r hr
          have := (List.mem_filter.mp hr).2
          simp at this ⊢
          exact this
        have h2 : [ftsProj (g old)].filter (fun r => r.rowid = old.id) =
            [ftsProj (g old)] := by
          simp [ftsProj, hg]
        rw [h1, h2, List.nil_append]
        rw [filter_map_if _ _ _ (fun d => by rw [hupd_id]), hfilter_i]
        simp
      · have h2 : [ftsProj (g old)].filter (fun r => r.rowid = j) = [] := by
          simp [ftsProj, hg]
          exact fun h => absurd h.symm hj
        rw [filter_filter_ne _ _ _ hj, h2, List.append_nil, hs j]
        rw [filter_map_if _ _ _ (fun d => by rw [hupd_id])]
        congr 1
        have heq : ∀ d ∈ db.documentos.filter (fun d => d.id = j),
            (if d.id = old.id then g d else d) = id d := by
          intro d hd
          have : d.id = j := by simpa using (List.mem_filter.mp hd).2
          rw [if_neg (by rw [this]; exact hj)]
          rfl
        rw [List.map_congr_left heq, List.map_id]

/-- `register_document` preserves well-formedness and the FTS mirror
invariant. -/
theorem register_inv (db : DBState) (fn fp h : String) (now : Nat)
    (hok : DocsOk db) (hs : FtsSync db) :
    DocsOk (register_document db fn fp h now).2 ∧
    FtsSync (register_document db fn fp h now).2 := by
  unfold register_document
  cases get_document_by_hash db h with
  | some d => exact ⟨hok, hs⟩
  | none =>
    simp only [insertDocRow]
    constructor
    · constructor
      · intro d hd
        simp only [List.mem_append, List.mem_singleton] at hd
        rcases hd with hd | rfl
        · exact Nat.lt_succ_of_lt (hok.1 d hd)
        · exact Nat.lt_succ_self _
      · apply List.pairwise_append.mpr
        refine ⟨hok.2, List.pairwise_singleton _ _, ?_⟩
        intro a ha b hb
        simp only [List.mem_singleton] at hb
        subst hb
        exact Nat.ne_of_lt (hok.1 a ha)
    · intro j
      simp only [List.filter_append, List.map_append, hs j]
      congr 1
      by_cases hj : db.nextDocId = j <;> simp [ftsProj, hj]

/-- `deleteDocRow` preserves well-formedness and the FTS mirror
invariant. -/
theorem deleteDocRow_inv (db : DBState) (i : Nat)
    (hok : DocsOk db) (hs : FtsSync db) :
    DocsOk (deleteDocRow db i) ∧ FtsSync (deleteDocRow db i) := by
  unfold deleteDocRow
  constructor
  · constructor
    · intro d hd
      exact hok.1 d (List.mem_of_mem_filter hd)
    · exact hok.2.sublist (List.filter_sublist _)
  · intro j
    by_cases hex : db.documentos.any (fun d => d.id = i) = true
    · simp only [hex, if_pos]
      by_cases hj : j = i
      · subst hj
        have h1 : (db.fts.filter (fun r => r.rowid ≠ j)).filter
            (fun r => r.rowid = j) = [] := by
          apply List.filter_eq_nil_iff.mpr
          intro r hr
          have := (List.mem_filter.mp hr).2
          simp at this ⊢
          exact this
        have h2 : (db.documentos.filter (fun d => d.id ≠ j)).filter
            (fun d => d.id = j) = [] := by
          apply List.filter_eq_nil_iff.mpr
          intro d hd
          have := (List.mem_filter.mp hd).2
          simp at this ⊢
          exact this
        rw [h1, h2]
        rfl
      · rw [filter_filter_ne _ _ _ hj, hs j,
          filter_key_filter_ne (fun d : Document => d.id) db.documentos i j hj]
    · simp only [hex]
      have hnone : ∀ d ∈ db.documentos, d.id ≠ i := by
        intro d hd
        by_contra hc
        exact hex (List.any_eq_true.mpr ⟨d, hd, by simpa using hc⟩)
      have : db.documentos.filter (fun d => d.id ≠ i) = db.documentos := by
        apply List.filter_eq_self.mpr
        intro d hd
        simpa using hnone d hd
      simp only [if_neg hex, this]
      exact hs j

/-- Every registry operation preserves the invariant. -/
theorem applyOp_inv (db : DBState) (op : RegOp)
    (hok : DocsOk db) (hs : FtsSync db) :
    DocsOk (applyOp db op) ∧ FtsSync (applyOp db op) := by
  cases op with
  | register fn fp h now => exact register_inv db fn fp h now hok hs
  | setStatus i s e =>
      apply updateDocRow_inv db i _ _ hok hs
      intro d
      by_cases h : truthyStr e = true <;> simp [h]
  | setClassification i t c et r en =>
      exact updateDocRow_inv db i _ (fun d => rfl) hok hs
  | setOcr i p jp pg tx =>
      exact updateDocRow_inv db i _ (fun d => rfl) hok hs
  | setNormPath i p =>
      exact updateDocRow_inv db i _ (fun d => rfl) hok hs
  | setIndexed i r now =>
      exact updateDocRow_inv db i _ (fun d => rfl) hok hs
  | delete i => exact deleteDocRow_inv db i hok hs

/-- The invariant holds after any operation sequence from any state
satisfying it. -/
theorem applyOps_inv (ops : List RegOp) (db : DBState)
    (hok : DocsOk db) (hs : FtsSync db) :
    DocsOk (applyOps ops db) ∧ FtsSync (applyOps ops db) := by
  induction ops generalizing db with
  | nil => exact ⟨hok, hs⟩
  | cons op rest ih =>
      have h1 := applyOp_inv db op hok hs
      exact ih (applyOp db op) h1.1 h1.2

/-- C5: for every sequence of insert/update/delete operations on the
documents table starting from the freshly initialized database, the
full-text index afterwards contains exactly one entry per existing
document, holding precisely the projection of that document's latest
field values (updates propagate through the AFTER UPDATE trigger as a
delete of the old entry followed by a reinsert of the new one), and no
entry for any deleted document (every index entry is the projection of
an existing document row). -/
theorem claim_C5_index_consistency (ops : List RegOp) :
    (∀ d ∈ (applyOps ops initialState).documentos,
        (applyOps ops initialState).fts.filter (fun r => r.rowid = d.id) =
          [ftsProj d]) ∧
    (∀ r ∈ (applyOps ops initialState).fts,
        ∃ d ∈ (applyOps ops initialState).documentos, r = ftsProj d) := by
  have hinit_ok : DocsOk initialState :=
    ⟨by simp [initialState], by simp [initialState]⟩
  have hinit_s : FtsSync initialState := fun j => by simp [initialState]
  obtain ⟨hok, hs⟩ := applyOps_inv ops initialState hinit_ok hinit_s
  constructor
  · intro d hd
    rw [hs d.id, filter_eq_single_of_mem _ d hok.2 hd]
    rfl
  · intro r hr
    have hr' : r ∈ (applyOps ops initialState).fts.filter
        (fun x => x.rowid = r.rowid) :=
      List.mem_filter.mpr ⟨hr, by simp⟩
    rw [hs r.rowid] at hr'
    obtain ⟨d, hd, rfl⟩ := List.mem_map.mp hr'
    exact ⟨d, List.mem_of_mem_filter hd, rfl⟩

/-- A concrete operation sequence: register one document, record its
OCR results, index it, then register and delete a second document. -/
def c5ops : List RegOp :=
  [.register "a.pdf" "/in/a.pdf" "h1" 0,
   .setOcr 1 "/ocr/1.md" "/ocr/1.json" 4 (some "texto uno"),
   .setIndexed 1 none 5,
   .register "b.pdf" "/in/b.pdf" "h2" 6,
   .delete 2]

/-- The document row expected after `c5ops`. -/
def c5doc : Document :=
  { id := 1, nombre_archivo := "a.pdf", ruta_pdf := "/in/a.pdf",
    hash_sha256 := "h1", estado := "indexado", tipo_documento := none,
    confianza := none, requiere_revision := 0, paginas := some 4,
    fecha_recibido := some 0, fecha_indexado := some 5,
    error_mensaje := none, ocr_path := some "/ocr/1.md",
    ocr_json_path := some "/ocr/1.json", etiquetas := none,
    entidades := none, resumen := some "", norm_path := none,
    texto_ocr := some "texto uno" }

theorem claim_C5_index_consistency_witness :
    (applyOps c5ops initialState).fts.filter
        (fun r => r.rowid = c5doc.id) = [ftsProj c5doc] :=
  (claim_C5_index_consistency c5ops).1 c5doc (by decide)

/-- C9: `update_indexed` called without a summary argument — exactly how
the ingestion pipeline calls it (`runStages` passes `none`) — sets the
matching document's state to `indexado` and its indexing timestamp, and
unconditionally overwrites `resumen` with the empty string, while every
other field keeps its previous value (the conclusion exhibits the
updated row as a record update of the old row touching only `estado`,
`fecha_indexado` and `resumen`); rows with a different id are untouched
and no row is added or removed. -/
theorem claim_C9_update_indexed_frame (db : DBState) (docId now : Nat) :
    (update_indexed db docId none now).documentos.length =
      db.documentos.length ∧
    (∀ d ∈ db.documentos, d.id = docId →
      { d with estado := "indexado", fecha_indexado := some now,
               resumen := some "" } ∈
        (update_indexed db docId none now).documentos) ∧
    (∀ d ∈ db.documentos, d.id ≠ docId →
      d ∈ (update_indexed db docId none now).documentos) := by
  unfold update_indexed updateDocRow
  cases hf : db.documentos.find? (fun d => d.id = docId) with
  | none =>
    have hno : ∀ d ∈ db.documentos, d.id ≠ docId := by
      intro d hd
      have := List.find?_eq_none.mp hf d hd
      simpa using this
    exact ⟨rfl, fun d hd hid => absurd hid (hno d hd), fun d hd _ => hd⟩
  | some old =>
    refine ⟨by simp, ?_, ?_⟩
    · intro d hd hid
      apply List.mem_map.mpr
      exact ⟨d, hd, by rw [if_pos hid]; rfl⟩
    · intro d hd hid
      apply List.mem_map.mpr
      exact ⟨d, hd, by rw [if_neg hid]⟩

/-- A document row carrying a previously stored summary. -/
def c9doc : Document :=
  { id := 1, nombre_archivo := "a.pdf", ruta_pdf := "/in/a.pdf",
    hash_sha256 := "h1", estado := "clasificado",
    tipo_documento := some "contrato", confianza := some (9/10),
    requiere_revision := 0, paginas := some 4, fecha_recibido := some 0,
    fecha_indexado := none, error_mensaje := none,
    ocr_path := some "/ocr/1.md", ocr_json_path := some "/ocr/1.json",
    etiquetas := some "[]", entidades := some "\x7b\x7d",
    resumen := some "resumen previo", norm_path := some "/norm/1.md",
    texto_ocr := some "texto" }

theorem claim_C9_update_indexed_frame_witness :
    { c9doc with estado := "indexado", fecha_indexado := some 7,
                 resumen := some "" } ∈
      (update_indexed
        { documentos := [c9doc], nextDocId := 2, fts := [ftsProj c9doc],
          jobs := [], nextJobId := 1 } 1 none 7).documentos :=
  (claim_C9_update_indexed_frame
    { documentos := [c9doc], nextDocId := 2, fts := [ftsProj c9doc],
      jobs := [], nextJobId := 1 } 1 7).2.1 c9doc (List.mem_singleton_self c9doc)
    rfl

/-! ## Helper lemmas about the pipeline's database effects -/

theorem updateDocRow_jobs (db : DBState) (i : Nat) (g : Document → Document) :
    (updateDocRow db i g).jobs = db.jobs := by
  unfold updateDocRow
  cases db.documentos.find? (fun d => d.id = i) <;> rfl

theorem updateDocRow_nextJobId (db : DBState) (i : Nat) (g : Document → Document) :
    (updateDocRow db i g).nextJobId = db.nextJobId := by
  unfold updateDocRow
  cases db.documentos.find? (fun d => d.id = i) <;> rfl

theorem updateDocRow_docs_length (db : DBState) (i : Nat) (g : Document → Document) :
    (updateDocRow db i g).documentos.length = db.documentos.length := by
  unfold updateDocRow
  cases db.documentos.find? (fun d => d.id = i) <;> simp

theorem find?_map_hash_pres (f : Document → Document)
    (hf : ∀ d, (f d).hash_sha256 = d.hash_sha256) (l : List Document) (h : String) :
    (l.map f).find? (fun d => d.hash_sha256 = h) =
      (l.find? (fun d => d.hash_sha256 = h)).map f := by
  induction l with
  | nil => rfl
  | cons a t ih =>
    by_cases ha : a.hash_sha256 = h
    · rw [List.map_cons, List.find?_cons_of_pos _ (by simp [hf, ha]),
        List.find?_cons_of_pos _ (by simp [ha])]
      rfl
    · rw [List.map_cons, List.find?_cons_of_neg _ (by simp [hf, ha]),
        List.find?_cons_of_neg _ (by simp [ha]), ih]

/-- Effect of a row update on hash lookup, for hash-preserving updates. -/
theorem get_by_hash_updateDocRow (db : DBState) (i : Nat) (g : Document → Document)
    (h : String) (hg : ∀ d, (g d).hash_sha256 = d.hash_sha256) :
    get_document_by_hash (updateDocRow db i g) h =
      (get_document_by_hash db h).map (fun d => if d.id = i then g d else d) := by
  unfold updateDocRow
  cases hf : db.documentos.find? (fun d => d.id = i) with
  | none =>
    unfold get_document_by_hash
    cases hgd : db.documentos.find? (fun d => d.hash_sha256 = h) with
    | none => rfl
    | some d =>
      have hdmem : d ∈ db.documentos := List.mem_of_find?_eq_some hgd
      have hdne : d.id ≠ i := by
        have := List.find?_eq_none.mp hf d hdmem
        simpa using this
      simp [hdne]
  | some old =>
    unfold get_document_by_hash
    simp only
    rw [find?_map_hash_pres _ (fun d => by
      by_cases hdi : d.id = i <;> simp [hdi, hg]) _ h]

theorem get_by_hash_enqueue (db : DBState) (i now : Nat) (h : String) :
    get_document_by_hash (enqueue_job db i now).2 h = get_document_by_hash db h := rfl

theorem get_by_hash_mark_done (db : DBState) (j now : Nat) (h : String) :
    get_document_by_hash (mark_job_done db j now) h = get_document_by_hash db h := rfl

/-- The document found by hash exists and carries that hash. -/
theorem get_by_hash_spec (db : DBState) (h : String) (d : Document)
    (hd : get_document_by_hash db h = some d) :
    d ∈ db.documentos ∧ d.hash_sha256 = h := by
  refine ⟨List.mem_of_find?_eq_some hd, ?_⟩
  have := List.find?_some hd
  simpa using this

/-- No document with the hash is present. -/
def hashAbsent (db : DBState) (h : String) : Prop :=
  get_document_by_hash db h = none

/-- Some document with the hash is present. -/
def hashExists (db : DBState) (h : String) : Prop :=
  get_document_by_hash db h ≠ none

/-- No document with the hash has reached the terminal state. -/
def notIndexedAt (db : DBState) (h : String) : Prop :=
  ∀ d, get_document_by_hash db h = some d → d.estado ≠ "indexado"

/-- Number of document rows carrying a given content hash. -/
def countHash (db : DBState) (h : String) : Nat :=
  (db.documentos.filter (fun d => d.hash_sha256 = h)).length

theorem countHash_updateDocRow (db : DBState) (i : Nat) (g : Document → Document)
    (h : String) (hg : ∀ d, (g d).hash_sha256 = d.hash_sha256) :
    countHash (updateDocRow db i g) h = countHash db h := by
  unfold updateDocRow
  cases hf : db.documentos.find? (fun d => d.id = i) with
  | none => rfl
  | some old =>
    unfold countHash
    simp only
    induction db.documentos with
    | nil => rfl
    | cons a t ih =>
      by_cases ha : a.hash_sha256 = h
      · rw [List.map_cons,
          List.filter_cons_of_pos (by by_cases hdi : a.id = i <;> simp [hdi, hg, ha]),
          List.filter_cons_of_pos (by simp [ha])]
        simpa using ih
      · rw [List.map_cons,
          List.filter_cons_of_neg (by by_cases hdi : a.id = i <;> simp [hdi, hg, ha]),
          List.filter_cons_of_neg (by simp [ha])]
        exact ih

theorem countHash_zero_iff_absent (db : DBState) (h : String) :
    countHash db h = 0 ↔ hashAbsent db h := by
  unfold countHash hashAbsent get_document_by_hash
  rw [List.length_eq_zero, List.filter_eq_nil_iff, List.find?_eq_none]

theorem hashExists_updateDocRow (db : DBState) (i : Nat) (g : Document → Document)
    (h : String) (hg : ∀ d, (g d).hash_sha256 = d.hash_sha256) :
    hashExists db h → hashExists (updateDocRow db i g) h := by
  unfold hashExists
  rw [get_by_hash_updateDocRow db i g h hg]
  cases get_document_by_hash db h <;> simp

theorem notIndexedAt_updateDocRow (db : DBState) (i : Nat) (g : Document → Document)
    (h : String) (hg : ∀ d, (g d).hash_sha256 = d.hash_sha256)
    (hge : ∀ d, (g d).estado ≠ "indexado") :
    notIndexedAt db h → notIndexedAt (updateDocRow db i g) h := by
  intro hni d' hd'
  rw [get_by_hash_updateDocRow db i g h hg] at hd'
  cases hgd : get_document_by_hash db h with
  | none => rw [hgd] at hd'; exact absurd hd' (by simp)
  | some d =>
    rw [hgd] at hd'
    have : (if d.id = i then g d else d) = d' := by
      simpa using hd'
    subst this
    by_cases hdi : d.id = i
    · rw [if_pos hdi]; exact hge d
    · rw [if_neg hdi]; exact hni d hgd

/-- The staged part of a pipeline attempt returns exactly the
environment-determined outcome, whatever the database contents. -/
theorem runStages_result (env : PipelineEnv) (docId : Nat) (db : DBState) :
    (runStages env docId db).result = stagesOutcome env := by
  unfold runStages stagesOutcome
  cases env.ocr with
  | error m => rfl
  | ok o =>
    dsimp only
    by_cases hmd : (o.md_path = "" ∨ o.md_exists = false)
    · rw [if_pos hmd, if_pos hmd]
    · rw [if_neg hmd, if_neg hmd]
      cases env.classify (env.normText o.raw_text) with
      | error m => rfl
      | ok c =>
        dsimp only
        by_cases hrev : (c.requiere_revision ∧ env.forceIndexing = false)
        · rw [if_pos hrev, if_pos hrev]
        · rw [if_neg hrev, if_neg hrev]
          cases env.indexResult with
          | error m => rfl
          | ok p => rfl

theorem countHash_runStages (env : PipelineEnv) (docId : Nat) (db : DBState)
    (h : String) :
    countHash (runStages env docId db).db h = countHash db h := by
  have hocr : ∀ db' i p jp pg t,
      countHash (update_ocr_data db' i p jp pg t) h = countHash db' h :=
    fun db' i p jp pg t => countHash_updateDocRow db' i _ h (fun d => rfl)
  have hnorm : ∀ db' i p,
      countHash (update_norm_path db' i p) h = countHash db' h :=
    fun db' i p => countHash_updateDocRow db' i _ h (fun d => rfl)
  have hcls : ∀ db' i t c et r en,
      countHash (update_document_classification db' i t c et r en) h =
        countHash db' h :=
    fun db' i t c et r en => countHash_updateDocRow db' i _ h (fun d => rfl)
  have hidx : ∀ db' i r now,
      countHash (update_indexed db' i r now) h = countHash db' h :=
    fun db' i r now => countHash_updateDocRow db' i _ h (fun d => rfl)
  have hmk : ∀ db' j now, countHash (mark_job_done db' j now) h = countHash db' h :=
    fun db' j now => rfl
  have henq : ∀ db' i now, countHash (enqueue_job db' i now).2 h = countHash db' h :=
    fun db' i now => rfl
  unfold runStages
  cases env.ocr with
  | error m => exact henq db docId env.now
  | ok o =>
    dsimp only
    by_cases hmd : (o.md_path = "" ∨ o.md_exists = false)
    · rw [if_pos hmd]
      dsimp only
      rw [hocr, henq]
    · rw [if_neg hmd]
      cases env.classify (env.normText o.raw_text) with
      | error m =>
        dsimp only
        rw [hnorm, hocr, henq]
      | ok c =>
        dsimp only
        by_cases hrev : (c.requiere_revision ∧ env.forceIndexing = false)
        · rw [if_pos hrev]
          dsimp only
          rw [hmk, hcls, hnorm, hocr, henq]
        · rw [if_neg hrev]
          cases env.indexResult with
          | error m =>
            dsimp only
            rw [hcls, hnorm, hocr, henq]
          | ok p =>
            dsimp only
            rw [hmk, hidx, hcls, hnorm, hocr, henq]

theorem hashExists_runStages (env : PipelineEnv) (docId : Nat) (db : DBState)
    (h : String) (hex : hashExists db h) :
    hashExists (runStages env docId db).db h := by
  have hupd : ∀ db' i (g : Document → Document),
      (∀ d, (g d).hash_sha256 = d.hash_sha256) →
      hashExists db' h → hashExists (updateDocRow db' i g) h :=
    fun db' i g hg => hashExists_updateDocRow db' i g h hg
  have henq : ∀ db' i now, hashExists db' h → hashExists (enqueue_job db' i now).2 h :=
    fun db' i now hx => hx
  have hmk : ∀ db' j now, hashExists db' h → hashExists (mark_job_done db' j now) h :=
    fun db' j now hx => hx
  unfold runStages
  cases env.ocr with
  | error m => exact henq db docId env.now hex
  | ok o =>
    dsimp only
    by_cases hmd : (o.md_path = "" ∨ o.md_exists = false)
    · rw [if_pos hmd]
      exact hupd _ _ _ (fun d => rfl) (henq db docId env.now hex)
    · rw [if_neg hmd]
      cases env.classify (env.normText o.raw_text) with
      | error m =>
        exact hupd _ _ _ (fun d => rfl)
          (hupd _ _ _ (fun d => rfl) (henq db docId env.now hex))
      | ok c =>
        dsimp only
        by_cases hrev : (c.requiere_revision ∧ env.forceIndexing = false)
        · rw [if_pos hrev]
          exact hmk _ _ _ (hupd _ _ _ (fun d => rfl)
            (hupd _ _ _ (fun d => rfl)
              (hupd _ _ _ (fun d => rfl) (henq db docId env.now hex))))
        · rw [if_neg hrev]
          cases env.indexResult with
          | error m =>
            exact hupd _ _ _ (fun d => rfl)
              (hupd _ _ _ (fun d => rfl)
                (hupd _ _ _ (fun d => rfl) (henq db docId env.now hex)))
          | ok p =>
            exact hmk _ _ _ (hupd _ _ _ (fun d => rfl)
              (hupd _ _ _ (fun d => rfl)
                (hupd _ _ _ (fun d => rfl)
                  (hupd _ _ _ (fun d => rfl) (henq db docId env.now hex)))))

/-- A pipeline attempt whose staged part fails never marks any document
`'indexado'`. -/
theorem notIndexedAt_runStages (env : PipelineEnv) (docId : Nat) (db : DBState)
    (h : String) (hres : stagesOutcome env ≠ .ok ())
    (hni : notIndexedAt db h) :
    notIndexedAt (runStages env docId db).db h := by
  have hupd : ∀ db' i (g : Document → Document),
      (∀ d, (g d).hash_sha256 = d.hash_sha256) →
      (∀ d, (g d).estado ≠ "indexado") →
      notIndexedAt db' h → notIndexedAt (updateDocRow db' i g) h :=
    fun db' i g hg hge => notIndexedAt_updateDocRow db' i g h hg hge
  unfold runStages
  unfold stagesOutcome at hres
  cases hocr : env.ocr with
  | error m => exact hni
  | ok o =>
    rw [hocr] at hres
    dsimp only at hres ⊢
    by_cases hmd : (o.md_path = "" ∨ o.md_exists = false)
    · rw [if_pos hmd]
      exact hupd _ _ _ (fun d => rfl) (fun d => by simp) hni
    · rw [if_neg hmd]
      rw [if_neg hmd] at hres
      cases hcls : env.classify (env.normText o.raw_text) with
      | error m =>
        exact hupd _ _ _ (fun d => rfl) (fun d => by simp)
          (hupd _ _ _ (fun d => rfl) (fun d => by simp) hni)
      | ok c =>
        rw [hcls] at hres
        dsimp only at hres ⊢
        by_cases hrev : (c.requiere_revision ∧ env.forceIndexing = false)
        · rw [if_pos hrev] at hres
          exact absurd rfl hres
        · rw [if_neg hrev]
          rw [if_neg hrev] at hres
          cases hidx : env.indexResult with
          | error m =>
            exact hupd _ _ _ (fun d => rfl) (fun d => by simp)
              (hupd _ _ _ (fun d => rfl) (fun d => by simp)
                (hupd _ _ _ (fun d => rfl) (fun d => by simp) hni))
          | ok p =>
            rw [hidx] at hres
            exact absurd rfl hres

theorem jobs_update_ocr_data (db : DBState) (i : Nat) (p jp : String) (pg : Nat)
    (t : Option String) : (update_ocr_data db i p jp pg t).jobs = db.jobs :=
  updateDocRow_jobs db i _

theorem jobs_update_norm_path (db : DBState) (i : Nat) (p : String) :
    (update_norm_path db i p).jobs = db.jobs :=
  updateDocRow_jobs db i _

theorem jobs_update_classification (db : DBState) (i : Nat) (t : String) (c : Rat)
    (et : String) (r : Bool) (en : String) :
    (update_document_classification db i t c et r en).jobs = db.jobs :=
  updateDocRow_jobs db i _

theorem jobs_update_indexed (db : DBState) (i : Nat) (r : Option String) (now : Nat) :
    (update_indexed db i r now).jobs = db.jobs :=
  updateDocRow_jobs db i _

theorem nextJobId_update_ocr_data (db : DBState) (i : Nat) (p jp : String) (pg : Nat)
    (t : Option String) : (update_ocr_data db i p jp pg t).nextJobId = db.nextJobId :=
  updateDocRow_nextJobId db i _

theorem nextJobId_update_norm_path (db : DBState) (i : Nat) (p : String) :
    (update_norm_path db i p).nextJobId = db.nextJobId :=
  updateDocRow_nextJobId db i _

theorem nextJobId_update_classification (db : DBState) (i : Nat) (t : String) (c : Rat)
    (et : String) (r : Bool) (en : String) :
    (update_document_classification db i t c et r en).nextJobId = db.nextJobId :=
  updateDocRow_nextJobId db i _

theorem nextJobId_update_indexed (db : DBState) (i : Nat) (r : Option String)
    (now : Nat) : (update_indexed db i r now).nextJobId = db.nextJobId :=
  updateDocRow_nextJobId db i _

/-- Each run of the staged pipeline part appends exactly one new job
row, targeting the given document id, left `'pending'` on failure or
marked `'done'` on success; pre-existing job rows are untouched. -/
theorem runStages_jobs_shape (env : PipelineEnv) (docId : Nat) (db : DBState)
    (hjobs : ∀ j ∈ db.jobs, j.id < db.nextJobId) :
    ∃ jnew : Job, (runStages env docId db).db.jobs = db.jobs ++ [jnew] ∧
      jnew.doc_id = docId ∧
      (jnew.estado = "pending" ∨ jnew.estado = "done") := by
  set pj : Job :=
    { id := db.nextJobId, doc_id := docId, intentos := 0, estado := "pending",
      ultimo_error := none, created_at := env.now, updated_at := env.now } with hpj
  have henq : (enqueue_job db docId env.now).2.jobs = db.jobs ++ [pj] := rfl
  have hdone : ∀ db' : DBState, db'.jobs = db.jobs ++ [pj] →
      (mark_job_done db' db.nextJobId env.now).jobs =
        db.jobs ++ [{ pj with estado := "done", updated_at := env.now }] := by
    intro db' hdb'
    show db'.jobs.map _ = _
    rw [hdb', List.map_append]
    congr 1
    · apply (List.map_congr_left ?_).trans (List.map_id _)
      intro j hj
      rw [if_neg (by exact Nat.ne_of_lt (hjobs j hj))]
      rfl
    · rw [List.map_singleton, if_pos rfl]
  unfold runStages
  cases env.ocr with
  | error m => exact ⟨pj, henq, rfl, Or.inl rfl⟩
  | ok o =>
    dsimp only
    by_cases hmd : (o.md_path = "" ∨ o.md_exists = false)
    · rw [if_pos hmd]
      exact ⟨pj, by rw [jobs_update_ocr_data, henq], rfl, Or.inl rfl⟩
    · rw [if_neg hmd]
      cases env.classify (env.normText o.raw_text) with
      | error m =>
        exact ⟨pj, by rw [jobs_update_norm_path, jobs_update_ocr_data, henq],
          rfl, Or.inl rfl⟩
      | ok c =>
        dsimp only
        by_cases hrev : (c.requiere_revision ∧ env.forceIndexing = false)
        · rw [if_pos hrev]
          refine ⟨{ pj with estado := "done", updated_at := env.now }, ?_, rfl,
            Or.inr rfl⟩
          exact hdone _ (by
            rw [jobs_update_classification, jobs_update_norm_path,
              jobs_update_ocr_data, henq])
        · rw [if_neg hrev]
          cases env.indexResult with
          | error m =>
            exact ⟨pj, by
              rw [jobs_update_classification, jobs_update_norm_path,
                jobs_update_ocr_data, henq], rfl, Or.inl rfl⟩
          | ok p =>
            refine ⟨{ pj with estado := "done", updated_at := env.now }, ?_, rfl,
              Or.inr rfl⟩
            exact hdone _ (by
              rw [jobs_update_indexed, jobs_update_classification,
                jobs_update_norm_path, jobs_update_ocr_data, henq])

/-- When no document with the hash has reached `'indexado'`, the result
of a pipeline attempt is exactly the environment-determined outcome. -/
theorem runPipeline_result (env : PipelineEnv) (fn fp h : String) (db : DBState)
    (hni : notIndexedAt db h) :
    (runPipeline env fn fp h db).result = pipelineOutcome env fn := by
  unfold runPipeline pipelineOutcome
  by_cases hs : env.stabilizes = false
  · rw [if_pos hs, if_pos hs]
  · rw [if_neg hs, if_neg hs]
    by_cases hv : env.validPdf = false
    · rw [if_pos hv, if_pos hv]
    · rw [if_neg hv, if_neg hv]
      cases hgd : get_document_by_hash db h with
      | some d =>
        dsimp only
        rw [if_neg (hni d hgd)]
        exact runStages_result env d.id db
      | none =>
        unfold register_document
        rw [hgd]
        dsimp only
        exact runStages_result env db.nextDocId _

/-- Exact effect of one pipeline attempt on the number of rows carrying
the submitted hash: one row is added exactly when the item passes
stabilization and validation and no row with the hash exists yet;
otherwise the count is unchanged. -/
theorem countHash_runPipeline_eq (env : PipelineEnv) (fn fp h : String)
    (db : DBState) :
    countHash (runPipeline env fn fp h db).db h =
      countHash db h +
        (if env.stabilizes = true ∧ env.validPdf = true ∧
            get_document_by_hash db h = none then 1 else 0) := by
  unfold runPipeline
  by_cases hs : env.stabilizes = false
  · rw [if_pos hs, if_neg (by simp [hs]), Nat.add_zero]
  · rw [if_neg hs]
    have hs' : env.stabilizes = true := by revert hs; cases env.stabilizes <;> simp
    by_cases hv : env.validPdf = false
    · rw [if_pos hv, if_neg (by simp [hv]), Nat.add_zero]
    · rw [if_neg hv]
      have hv' : env.validPdf = true := by revert hv; cases env.validPdf <;> simp
      cases hgd : get_document_by_hash db h with
      | some d =>
        dsimp only
        rw [if_neg (show ¬(env.stabilizes = true ∧ env.validPdf = true ∧
            (some d : Option Document) = none) by simp), Nat.add_zero]
        by_cases hidx : d.estado = "indexado"
        · rw [if_pos hidx]
        · rw [if_neg hidx]; exact countHash_runStages env d.id db h
      | none =>
        unfold register_document
        rw [hgd]
        dsimp only
        rw [if_pos ⟨hs', hv', rfl⟩]
        rw [countHash_runStages]
        unfold countHash insertDocRow
        simp

/-- A pipeline attempt preserves presence of the hash, and establishes
it whenever the item passes stabilization and validation. -/
theorem hashExists_runPipeline (env : PipelineEnv) (fn fp h : String) (db : DBState)
    (hpre : hashExists db h ∨ (env.stabilizes = true ∧ env.validPdf = true)) :
    hashExists (runPipeline env fn fp h db).db h := by
  unfold runPipeline
  by_cases hs : env.stabilizes = false
  · rw [if_pos hs]
    rcases hpre with hx | ⟨hc, _⟩
    · exact hx
    · rw [hc] at hs; simp at hs
  · rw [if_neg hs]
    by_cases hv : env.validPdf = false
    · rw [if_pos hv]
      rcases hpre with hx | ⟨_, hc⟩
      · exact hx
      · rw [hc] at hv; simp at hv
    · rw [if_neg hv]
      cases hgd : get_document_by_hash db h with
      | some d =>
        dsimp only
        have hx : hashExists db h := by unfold hashExists; rw [hgd]; simp
        by_cases hidx : d.estado = "indexado"
        · rw [if_pos hidx]; exact hx
        · rw [if_neg hidx]; exact hashExists_runStages env d.id db h hx
      | none =>
        unfold register_document
        rw [hgd]
        dsimp only
        apply hashExists_runStages
        unfold get_document_by_hash at hgd
        unfold hashExists get_document_by_hash insertDocRow
        simp only [List.find?_append, hgd, Option.none_or]
        simp

/-- A pipeline attempt that does not succeed never marks any document
with this hash `'indexado'`. -/
theorem notIndexedAt_runPipeline (env : PipelineEnv) (fn fp h : String)
    (db : DBState) (hni : notIndexedAt db h)
    (hfail : (runPipeline env fn fp h db).result ≠ .ok ()) :
    notIndexedAt (runPipeline env fn fp h db).db h := by
  revert hfail
  unfold runPipeline
  by_cases hs : env.stabilizes = false
  · rw [if_pos hs]; exact fun _ => hni
  · rw [if_neg hs]
    by_cases hv : env.validPdf = false
    · rw [if_pos hv]; exact fun _ => hni
    · rw [if_neg hv]
      cases hgd : get_document_by_hash db h with
      | some d =>
        dsimp only
        by_cases hidx : d.estado = "indexado"
        · rw [if_pos hidx]
          exact fun hfail => absurd rfl hfail
        · rw [if_neg hidx]
          intro hfail
          apply notIndexedAt_runStages env d.id db h _ hni
          rw [← runStages_result env d.id db]
          exact hfail
      | none =>
        unfold register_document
        rw [hgd]
        dsimp only
        intro hfail
        apply notIndexedAt_runStages env db.nextDocId _ h
        · rw [← runStages_result env db.nextDocId
            { insertDocRow db _ with nextDocId := db.nextDocId + 1 }]
          exact hfail
        · intro d' hd'
          unfold get_document_by_hash insertDocRow at hd'
          unfold get_document_by_hash at hgd
          simp only [List.find?_append, hgd, Option.none_or] at hd'
          have : d' ∈ [_] := List.mem_of_find?_eq_some hd'
          simp at this
          subst this
          simp

theorem docs_length_runStages (env : PipelineEnv) (docId : Nat) (db : DBState) :
    (runStages env docId db).db.documentos.length = db.documentos.length := by
  have hocr : ∀ db' i p jp pg t,
      (update_ocr_data db' i p jp pg t).documentos.length =
        db'.documentos.length :=
    fun db' i p jp pg t => updateDocRow_docs_length db' i _
  have hnorm : ∀ db' i p,
      (update_norm_path db' i p).documentos.length = db'.documentos.length :=
    fun db' i p => updateDocRow_docs_length db' i _
  have hcls : ∀ db' i t c et r en,
      (update_document_classification db' i t c et r en).documentos.length =
        db'.documentos.length :=
    fun db' i t c et r en => updateDocRow_docs_length db' i _
  have hidx : ∀ db' i r now,
      (update_indexed db' i r now).documentos.length = db'.documentos.length :=
    fun db' i r now => updateDocRow_docs_length db' i _
  have hmk : ∀ (db' : DBState) j now,
      (mark_job_done db' j now).documentos.length = db'.documentos.length :=
    fun db' j now => rfl
  unfold runStages
  cases env.ocr with
  | error m => rfl
  | ok o =>
    dsimp only
    by_cases hmd : (o.md_path = "" ∨ o.md_exists = false)
    · rw [if_pos hmd]
      dsimp only
      rw [hocr]
      rfl
    · rw [if_neg hmd]
      cases env.classify (env.normText o.raw_text) with
      | error m =>
        dsimp only
        rw [hnorm, hocr]
        rfl
      | ok c =>
        dsimp only
        by_cases hrev : (c.requiere_revision ∧ env.forceIndexing = false)
        · rw [if_pos hrev]
          dsimp only
          rw [hmk, hcls, hnorm, hocr]
          rfl
        · rw [if_neg hrev]
          cases env.indexResult with
          | error m =>
            dsimp only
            rw [hcls, hnorm, hocr]
            rfl
          | ok p =>
            dsimp only
            rw [hmk, hidx, hcls, hnorm, hocr]
            rfl

/-- The dedup early-skip: when the document with the submitted hash is
already `'indexado'`, the attempt leaves the database untouched (in
particular, no Job row is created), and succeeds whenever the item
passes stabilization and validation. -/
theorem runPipeline_indexado_noop (env : PipelineEnv) (fn fp h : String)
    (db : DBState) (d : Document) (hgd : get_document_by_hash db h = some d)
    (hidx : d.estado = "indexado") :
    (runPipeline env fn fp h db).db = db ∧
    (env.stabilizes = true → env.validPdf = true →
      runPipeline env fn fp h db = ⟨db, .ok ()⟩) := by
  unfold runPipeline
  by_cases hs : env.stabilizes = false
  · rw [if_pos hs]
    exact ⟨rfl, fun h1 _ => by rw [h1] at hs; simp at hs⟩
  · rw [if_neg hs]
    by_cases hv : env.validPdf = false
    · rw [if_pos hv]
      exact ⟨rfl, fun _ h2 => by rw [h2] at hv; simp at hv⟩
    · rw [if_neg hv, hgd]
      dsimp only
      rw [if_pos hidx]
      exact ⟨rfl, fun _ _ => rfl⟩

/-- An attempt that fails stabilization or magic-byte validation leaves
the database untouched. -/
theorem runPipeline_invalid_noop (env : PipelineEnv) (fn fp h : String)
    (db : DBState) (hnv : env.stabilizes = false ∨ env.validPdf = false) :
    (runPipeline env fn fp h db).db = db := by
  unfold runPipeline
  rcases hnv with hs | hv
  · rw [if_pos hs]
  · by_cases hs : env.stabilizes = false
    · rw [if_pos hs]
    · rw [if_neg hs, if_pos hv]

/-- An attempt on a stable, valid item whose hash is not in the terminal
state enqueues exactly one new Job row — targeting the existing
document's id when one exists, the freshly assigned id otherwise — and
leaves all prior Job rows untouched. -/
theorem runPipeline_enqueues_one (env : PipelineEnv) (fn fp h : String)
    (db : DBState) (hs : env.stabilizes = true) (hv : env.validPdf = true)
    (hjobs : ∀ j ∈ db.jobs, j.id < db.nextJobId) :
    (∀ d, get_document_by_hash db h = some d → d.estado ≠ "indexado" →
      ∃ jnew : Job, (runPipeline env fn fp h db).db.jobs = db.jobs ++ [jnew] ∧
        jnew.doc_id = d.id ∧
        (jnew.estado = "pending" ∨ jnew.estado = "done")) ∧
    (get_document_by_hash db h = none →
      ∃ jnew : Job, (runPipeline env fn fp h db).db.jobs = db.jobs ++ [jnew] ∧
        jnew.doc_id = db.nextDocId ∧
        (jnew.estado = "pending" ∨ jnew.estado = "done")) := by
  unfold runPipeline
  rw [if_neg (by simp [hs]), if_neg (by simp [hv])]
  constructor
  · intro d hgd hidx
    rw [hgd]
    dsimp only
    rw [if_neg hidx]
    exact runStages_jobs_shape env d.id db hjobs
  · intro hgd
    rw [hgd]
    unfold register_document
    rw [hgd]
    dsimp only
    exact runStages_jobs_shape env db.nextDocId _ hjobs

/-- `add_to_dead_letter` records the error message on the document found
by hash: afterwards that document is in state `'error'` carrying the
message. -/
theorem get_by_hash_add_to_dead_letter (db : DBState) (h reason : String)
    (now : Nat) (d : Document) (hd : get_document_by_hash db h = some d)
    (hr : reason ≠ "") :
    get_document_by_hash (add_to_dead_letter db d.id reason now) h =
      some { d with estado := "error", error_mensaje := some reason } := by
  have htr : truthyStr (some reason) = true := by simp [truthyStr, hr]
  show get_document_by_hash (update_document_status db d.id "error" (some reason)) h = _
  unfold update_document_status
  rw [get_by_hash_updateDocRow db d.id _ h (fun x => by
    by_cases hx : truthyStr (some reason) = true <;> simp [hx])]
  rw [hd]
  simp only [Option.map_some']
  simp [htr]

theorem docs_length_runPipeline_existing (env : PipelineEnv) (fn fp h : String)
    (db : DBState) (d : Document) (hgd : get_document_by_hash db h = some d)
    (hidx : d.estado ≠ "indexado") :
    (runPipeline env fn fp h db).db.documentos.length =
      db.documentos.length := by
  unfold runPipeline
  by_cases hs : env.stabilizes = false
  · rw [if_pos hs]
  · rw [if_neg hs]
    by_cases hv : env.validPdf = false
    · rw [if_pos hv]
    · rw [if_neg hv, hgd]
      dsimp only
      rw [if_neg hidx]
      exact docs_length_runStages env d.id db

/-- C1: submitting byte-identical content (hence the same SHA-256 hash)
twice yields exactly one document row.  Conjuncts: (a) one pipeline
attempt never lets two rows share a hash, and preserves a unique
existing row; (b) from a state with no row for the hash, a first
submission that passes stabilization and validation followed by any
second submission leaves exactly one row; (c) when the document with the
hash already reached the terminal `'indexado'` state the attempt leaves
the database untouched — in particular no new Job row — and succeeds;
(d) when a document with the hash exists in a non-terminal state, its id
is reused: no document row is added, and the Job row the attempt
enqueues targets the existing document's id. -/
theorem claim_C1_idempotent_dedup (env env2 : PipelineEnv)
    (fn fp fn2 fp2 h : String) (db : DBState) :
    (countHash db h ≤ 1 → countHash (runPipeline env fn fp h db).db h ≤ 1) ∧
    (countHash db h = 1 → countHash (runPipeline env fn fp h db).db h = 1) ∧
    (countHash db h = 0 → env.stabilizes = true → env.validPdf = true →
      countHash
        (runPipeline env2 fn2 fp2 h (runPipeline env fn fp h db).db).db h = 1) ∧
    (∀ d, get_document_by_hash db h = some d → d.estado = "indexado" →
      (runPipeline env fn fp h db).db = db ∧
      (env.stabilizes = true → env.validPdf = true →
        runPipeline env fn fp h db = ⟨db, .ok ()⟩)) ∧
    (∀ d, get_document_by_hash db h = some d → d.estado ≠ "indexado" →
      (runPipeline env fn fp h db).db.documentos.length =
        db.documentos.length ∧
      ((∀ j ∈ db.jobs, j.id < db.nextJobId) → env.stabilizes = true →
        env.validPdf = true →
        ∃ jnew : Job,
          (runPipeline env fn fp h db).db.jobs = db.jobs ++ [jnew] ∧
          jnew.doc_id = d.id)) := by
  have hone : ∀ (e : PipelineEnv) (a b : String) (st : DBState),
      countHash st h = 1 → countHash (runPipeline e a b h st).db h = 1 := by
    intro e a b st h1
    rw [countHash_runPipeline_eq, h1]
    rw [if_neg ?_, Nat.add_zero]
    intro ⟨_, _, habs⟩
    have := (countHash_zero_iff_absent st h).mpr habs
    rw [this] at h1
    exact absurd h1 (by simp)
  refine ⟨?_, hone env fn fp db, ?_, ?_, ?_⟩
  · intro hle
    rw [countHash_runPipeline_eq]
    by_cases hc : (env.stabilizes = true ∧ env.validPdf = true ∧
        get_document_by_hash db h = none)
    · rw [if_pos hc]
      have h0 : countHash db h = 0 := (countHash_zero_iff_absent db h).mpr hc.2.2
      rw [h0]
    · rw [if_neg hc, Nat.add_zero]
      exact hle
  · intro h0 hs hv
    apply hone
    rw [countHash_runPipeline_eq, h0]
    rw [if_pos ⟨hs, hv, (countHash_zero_iff_absent db h).mp h0⟩]
  · intro d hgd hidx
    exact runPipeline_indexado_noop env fn fp h db d hgd hidx
  · intro d hgd hidx
    refine ⟨docs_length_runPipeline_existing env fn fp h db d hgd hidx, ?_⟩
    intro hjobs hs hv
    obtain ⟨jnew, hj1, hj2, _⟩ :=
      (runPipeline_enqueues_one env fn fp h db hs hv hjobs).1 d hgd hidx
    exact ⟨jnew, hj1, hj2⟩

/-- A database holding one already-indexed document with hash `"h1"` and
one pending job, used to instantiate the dedup theorem. -/
def c1db : DBState :=
  { documentos := [{ c5doc with estado := "indexado" }], nextDocId := 2,
    fts := [ftsProj { c5doc with estado := "indexado" }],
    jobs := [{ id := 1, doc_id := 1, intentos := 0, estado := "done",
               ultimo_error := none, created_at := 0, updated_at := 5 }],
    nextJobId := 2 }

/-- The OCR result used by the all-stages-succeed environment. -/
def ocrOk : OcrResult :=
  { md_path := "/ocr/1.md", json_path := "/ocr/1.json", pages := 4,
    md_exists := true, raw_text := "texto" }

/-- The classification result used by the all-stages-succeed
environment. -/
def clsOk : ClassifyResult :=
  { tipo := "contrato", confianza := 9/10, etiquetas := "[]",
    requiere_revision := false, entidades := "\x7b\x7d" }

/-- A pipeline environment in which every external stage succeeds. -/
def envOk : PipelineEnv :=
  { stabilizes := true,
    validPdf := true,
    ocr := Except.ok ocrOk,
    normText := fun t => t,
    classify := fun _ => Except.ok clsOk,
    indexResult := Except.ok "/indices/index_1.json",
    forceIndexing := true,
    now := 9 }

theorem claim_C1_idempotent_dedup_witness :
    countHash c1db "h1" = 1 ∧
    countHash (runPipeline envOk "a.pdf" "/in/a.pdf" "h1" c1db).db "h1" = 1 ∧
    runPipeline envOk "a.pdf" "/in/a.pdf" "h1" c1db = ⟨c1db, .ok ()⟩ := by
  have hc := claim_C1_idempotent_dedup envOk envOk "a.pdf" "/in/a.pdf"
    "a.pdf" "/in/a.pdf" "h1" c1db
  refine ⟨by decide, hc.2.1 (by decide), ?_⟩
  exact (hc.2.2.2.1 { c5doc with estado := "indexado" } (by decide) rfl).2
    (by decide) (by decide)

/-- The retry loop under an always-failing environment: every remaining
iteration fails, the back-off sleeps accumulate as consecutive powers of
two, and the final dead-letter step records the last failure message on
the document found by hash. -/
theorem processAux_fail (envs : Nat → PipelineEnv) (fn fp h : String)
    (maxR : Nat) (msgs : Nat → String)
    (hfail : ∀ k, pipelineOutcome (envs k) fn = .error (msgs k))
    (hmsg : msgs (maxR - 1) ≠ "") :
    ∀ rem db sleeps, 1 ≤ rem → rem ≤ maxR → notIndexedAt db h →
      (hashExists db h ∨
        ((envs (maxR - rem)).stabilizes = true ∧
         (envs (maxR - rem)).validPdf = true)) →
      (processAux envs fn fp h maxR rem db sleeps).attempts = maxR ∧
      (processAux envs fn fp h maxR rem db sleeps).succeeded = false ∧
      (processAux envs fn fp h maxR rem db sleeps).sleeps =
        sleeps ++ ((List.range (rem - 1)).map (fun t => 2 ^ (maxR - rem + t))) ∧
      ∃ d, get_document_by_hash
            (processAux envs fn fp h maxR rem db sleeps).db h = some d ∧
        d.estado = "error" ∧ d.error_mensaje = some (msgs (maxR - 1)) := by
  intro rem
  induction rem with
  | zero => intro db sleeps h1; exact absurd h1 (by simp)
  | succ n ih =>
    intro db sleeps _ hle hni hpre
    have hres : (runPipeline (envs (maxR - (n + 1))) fn fp h db).result =
        .error (msgs (maxR - (n + 1))) := by
      rw [runPipeline_result _ _ _ _ _ hni]
      exact hfail _
    have hni' : notIndexedAt (runPipeline (envs (maxR - (n + 1))) fn fp h db).db h := by
      apply notIndexedAt_runPipeline _ _ _ _ _ hni
      rw [hres]
      simp
    have hex' : hashExists (runPipeline (envs (maxR - (n + 1))) fn fp h db).db h :=
      hashExists_runPipeline _ _ _ _ _ hpre
    simp only [processAux]
    rw [hres]
    dsimp only
    by_cases hn : n > 0
    · rw [if_pos hn]
      have hrec := ih (runPipeline (envs (maxR - (n + 1))) fn fp h db).db
        (sleeps ++ [2 ^ (maxR - (n + 1))]) hn (Nat.le_of_succ_le hle)
        hni' (Or.inl hex')
      refine ⟨hrec.1, hrec.2.1, ?_, hrec.2.2.2⟩
      rw [hrec.2.2.1]
      rw [List.append_assoc]
      congr 1
      cases n with
      | zero => exact absurd hn (by simp)
      | succ m =>
        have e2 : m + 1 + 1 - 1 = m + 1 := by omega
        have e1 : m + 1 - 1 = m := by omega
        rw [e2, e1, List.range_succ_eq_map]
        simp only [List.map_cons, List.map_map, List.singleton_append,
          Nat.add_zero]
        congr 1
        apply List.map_congr_left
        intro t _
        simp only [Function.comp]
        congr 1
        omega
    · have hn0 : n = 0 := by omega
      subst hn0
      rw [if_neg (by simp)]
      simp only [Nat.zero_add]
      cases hgd : get_document_by_hash
          (runPipeline (envs (maxR - 1)) fn fp h db).db h with
      | none => exact absurd hgd hex'
      | some d1 =>
        dsimp only
        refine ⟨trivial, trivial, by simp, ?_⟩
        have hfin := get_by_hash_add_to_dead_letter _ h (msgs (maxR - 1))
          ((envs (maxR - 1)).now) d1 hgd hmsg
        exact ⟨_, hfin, rfl, rfl⟩

/-- C2: when every pipeline attempt on an item raises (the item is a
stable, valid PDF on its first attempt, so a Document row exists, and
each attempt's stage outcome is the exception message `msgs k`),
`process_document_sync` makes exactly `MAX_RETRIES` pipeline attempts,
sleeping `2^0, 2^1, …, 2^(MAX_RETRIES-2)` seconds between consecutive
attempts, then dead-letters: the Document's recorded error message is
exactly the message of the last failure. -/
theorem claim_C2_retry_bound (envs : Nat → PipelineEnv) (fn fp h : String)
    (maxR : Nat) (db : DBState) (msgs : Nat → String)
    (hmr : 1 ≤ maxR)
    (hpre : hashExists db h ∨
      ((envs 0).stabilizes = true ∧ (envs 0).validPdf = true))
    (hfail : ∀ k, pipelineOutcome (envs k) fn = .error (msgs k))
    (hni : notIndexedAt db h)
    (hmsg : msgs (maxR - 1) ≠ "") :
    (processDocumentSync envs fn fp h maxR db).attempts = maxR ∧
    (processDocumentSync envs fn fp h maxR db).succeeded = false ∧
    (processDocumentSync envs fn fp h maxR db).sleeps =
      (List.range (maxR - 1)).map (fun t => 2 ^ t) ∧
    ∃ d, get_document_by_hash (processDocumentSync envs fn fp h maxR db).db h =
          some d ∧
      d.estado = "error" ∧ d.error_mensaje = some (msgs (maxR - 1)) := by
  have hmain := processAux_fail envs fn fp h maxR msgs hfail hmsg maxR db [] hmr
    (Nat.le_refl maxR) hni (by simpa using hpre)
  unfold processDocumentSync
  refine ⟨hmain.1, hmain.2.1, ?_, hmain.2.2.2⟩
  rw [hmain.2.2.1]
  simp

/-- A pipeline environment for a stable, valid PDF whose OCR stage
always raises `"OCR boom"`. -/
def envFail : PipelineEnv :=
  { stabilizes := true,
    validPdf := true,
    ocr := Except.error "OCR boom",
    normText := fun t => t,
    classify := fun _ => Except.ok clsOk,
    indexResult := Except.ok "/indices/index_1.json",
    forceIndexing := true,
    now := 3 }

theorem claim_C2_retry_bound_witness :
    (processDocumentSync (fun _ => envFail) "a.pdf" "/in/a.pdf" "h9" 3
      initialState).attempts = 3 ∧
    (processDocumentSync (fun _ => envFail) "a.pdf" "/in/a.pdf" "h9" 3
      initialState).sleeps = [1, 2] ∧
    ∃ d, get_document_by_hash
        (processDocumentSync (fun _ => envFail) "a.pdf" "/in/a.pdf" "h9" 3
          initialState).db "h9" = some d ∧
      d.estado = "error" ∧ d.error_mensaje = some "OCR boom" := by
  have hc := claim_C2_retry_bound (fun _ => envFail) "a.pdf" "/in/a.pdf" "h9" 3
    initialState (fun _ => "OCR boom") (by decide) (Or.inr ⟨by decide, by decide⟩)
    (fun k => rfl)
    (fun d hd => by simp [get_document_by_hash, initialState] at hd)
    (by decide)
  refine ⟨hc.1, ?_, hc.2.2.2⟩
  rw [hc.2.2.1]
  decide

/-- The document row left behind by three failing attempts on hash
`"h9"` followed by dead-lettering. -/
def c3doc : Document :=
  { id := 1, nombre_archivo := "a.pdf", ruta_pdf := "/in/a.pdf",
    hash_sha256 := "h9", estado := "error", tipo_documento := none,
    confianza := none, requiere_revision := 0, paginas := none,
    fecha_recibido := some 3, fecha_indexado := none,
    error_mensaje := some "OCR boom", ocr_path := none,
    ocr_json_path := none, etiquetas := none, entidades := none,
    resumen := none, norm_path := none, texto_ocr := none }

/-- C3: evidence of the divergence.  After an item exhausts its retries,
the Document is indeed marked `error` with the last error message, but
the Jobs created for it do **not** end in `dead_letter`: the pipeline
never calls `mark_job_failed`, so no job is ever in state `failed`, and
`add_to_dead_letter`'s `UPDATE … WHERE estado='failed'` matches nothing —
every Job enqueued for the document remains `pending` forever. -/
theorem claim_C3_job_never_dead_lettered :
    get_document_by_hash
        (processDocumentSync (fun _ => envFail) "a.pdf" "/in/a.pdf" "h9" 3
          initialState).db "h9" = some c3doc ∧
    (processDocumentSync (fun _ => envFail) "a.pdf" "/in/a.pdf" "h9" 3
      initialState).db.jobs.length = 3 ∧
    (∀ j ∈ (processDocumentSync (fun _ => envFail) "a.pdf" "/in/a.pdf" "h9" 3
      initialState).db.jobs, j.doc_id = 1 ∧ j.estado = "pending") := by
  decide

/-- C4 (counterexample): after two failing attempts on the same fresh
document, the job queue holds **two** jobs for document 1 that are both
in a non-terminal state — refuting "at most one Job in a non-terminal
state per document at any time". -/
theorem claim_C4_counterexample :
    ((processDocumentSync (fun _ => envFail) "a.pdf" "/in/a.pdf" "h9" 2
        initialState).db.jobs.filter
      (fun j => j.doc_id = 1 ∧
        (j.estado = "pending" ∨ j.estado = "processing"))).length = 2 := by
  decide

/-- C4 (amended): a submission of a document already in the terminal
`'indexado'` state, or one failing stabilization or validation, creates
no Job; every other attempt — including a retry of a document whose
previous Job is still `pending` — appends exactly one new Job while
leaving all existing Job rows untouched, so several non-terminal
(`pending`) Jobs can coexist for one document. -/
theorem claim_C4_amended (env : PipelineEnv) (fn fp h : String) (db : DBState) :
    (∀ d, get_document_by_hash db h = some d → d.estado = "indexado" →
      (runPipeline env fn fp h db).db = db) ∧
    ((env.stabilizes = false ∨ env.validPdf = false) →
      (runPipeline env fn fp h db).db = db) ∧
    ((∀ j ∈ db.jobs, j.id < db.nextJobId) → env.stabilizes = true →
      env.validPdf = true → notIndexedAt db h →
      ∃ jnew : Job,
        (runPipeline env fn fp h db).db.jobs = db.jobs ++ [jnew] ∧
        (jnew.estado = "pending" ∨ jnew.estado = "done")) := by
  refine ⟨?_, runPipeline_invalid_noop env fn fp h db, ?_⟩
  · intro d hgd hidx
    exact (runPipeline_indexado_noop env fn fp h db d hgd hidx).1
  · intro hjobs hs hv hni
    cases hgd : get_document_by_hash db h with
    | some d =>
      obtain ⟨jnew, h1, _, h3⟩ :=
        (runPipeline_enqueues_one env fn fp h db hs hv hjobs).1 d hgd (hni d hgd)
      exact ⟨jnew, h1, h3⟩
    | none =>
      obtain ⟨jnew, h1, _, h3⟩ :=
        (runPipeline_enqueues_one env fn fp h db hs hv hjobs).2 hgd
      exact ⟨jnew, h1, h3⟩

theorem claim_C4_amended_witness :
    ∃ jnew : Job,
      (runPipeline envFail "a.pdf" "/in/a.pdf" "h9" initialState).db.jobs =
        initialState.jobs ++ [jnew] ∧
      (jnew.estado = "pending" ∨ jnew.estado = "done") :=
  (claim_C4_amended envFail "a.pdf" "/in/a.pdf" "h9" initialState).2.2
    (fun j hj => by simp [initialState] at hj) (by decide) (by decide)
    (fun d hd => by simp [get_document_by_hash, initialState] at hd)

theorem foldl_const {α β : Type} (f : β → α → β) (hf : ∀ b a, f b a = b) :
    ∀ (l : List α) (b : β), l.foldl f b = b := by
  intro l
  induction l with
  | nil => intro b; rfl
  | cons a t ih => intro b; rw [List.foldl_cons, hf]; exact ih b

/-- C8: with zero documents in the index cache, `SearchEngine.query`
returns the fixed "no documents available" answer and an empty source
list, and does not invoke the language-model service — whatever the
query, the explicit document subset, and the outcome of the full-text
search. -/
theorem claim_C8_no_documents (ftsResult : Except String (List String))
    (buildCtx : String → String) (llm : String → String)
    (queryStr : String) (docIds : Option (List String)) :
    searchQuery [] ftsResult buildCtx llm queryStr docIds =
      { answer := "No hay documentos indexados disponibles para responder.",
        sources := [], llmCalled := false } := by
  unfold searchQuery
  dsimp only
  simp only [List.contains_nil, Bool.false_eq_true, if_false]
  rw [foldl_const _ (fun b a => rfl)]
  rfl

/-- C10: the LLM completion cache keys a prompt by a digest of its first
400 characters only.  Conjunct one: any two prompts agreeing on their
first 400 characters get the same cache key, whatever the digest
function.  Conjunct two: consequently `generate_completion` with
`use_cache=True` (the mode `PageIndex_LLM_Adapter` always uses) can
serve the completion produced and cached for a *different* prompt: after
an uncached call on `p` returned `r`, a call on any `q` that shares
`p`'s first 400 characters returns `r` regardless of what the API would
have answered. -/
theorem claim_C10_cache_key_collision (digest : List Char → String)
    (p q : List Char) (hpq : p.take 400 = q.take 400)
    (cache : List (String × String)) (r : String) (api2 : Option String)
    (hmiss : getCached digest cache p = none) :
    cacheKey digest p = cacheKey digest q ∧
    (generateCompletion digest true cache p true (some r)).1 = r ∧
    (pageIndexAdapter digest true
        (generateCompletion digest true cache p true (some r)).2 q api2).1 =
      r := by
  have hkey : cacheKey digest p = cacheKey digest q := by
    unfold cacheKey
    rw [hpq]
  refine ⟨hkey, ?_, ?_⟩
  · unfold generateCompletion
    rw [if_neg (by simp), if_pos rfl, hmiss]
  · unfold pageIndexAdapter generateCompletion
    rw [if_neg (by simp), if_pos rfl, if_neg (by simp), if_pos rfl, hmiss]
    dsimp only
    have hnone : ∀ e ∈ cache, ¬(e.1 = cacheKey digest p) := by
      intro e he
      have hf : cache.find? (fun e => e.1 = cacheKey digest p) = none := by
        cases hf : cache.find? (fun e => e.1 = cacheKey digest p) with
        | none => rfl
        | some e0 =>
          unfold getCached at hmiss
          rw [hf] at hmiss
          simp at hmiss
      have := List.find?_eq_none.mp hf e he
      simpa using this
    have hhit : getCached digest (setCached digest cache p r) q = some r := by
      unfold getCached setCached
      rw [← hkey]
      have hnone' : ∀ e ∈ (if cache.length ≥ 256 then cache.drop 1 else cache),
          ¬(e.1 = cacheKey digest p) := by
        intro e he
        apply hnone
        by_cases hlen : cache.length ≥ 256
        · rw [if_pos hlen] at he; exact List.mem_of_mem_drop he
        · rw [if_neg hlen] at he; exact he
      have hany : (if cache.length ≥ 256 then cache.drop 1 else cache).any
          (fun e => e.1 = cacheKey digest p) = false := by
        apply List.any_eq_false.mpr
        intro e he
        simpa using hnone' e he
      rw [if_neg (by rw [hany]; simp)]
      rw [List.find?_append]
      rw [List.find?_eq_none.mpr (fun e he => by simpa using hnone' e he)]
      rw [List.find?_cons_of_pos _ (by simp)]
      rfl
    rw [hhit]

/-- A 401-character prompt ending in `'x'`. -/
def c10p : List Char := List.replicate 400 'a' ++ ['x']

/-- A different 401-character prompt agreeing with `c10p` on the first
400 characters. -/
def c10q : List Char := List.replicate 400 'a' ++ ['y']

theorem take400_replicate_append (c : Char) :
    ((List.replicate 400 'a') ++ [c]).take 400 = List.replicate 400 'a' := by
  have := List.take_left (List.replicate 400 'a') [c]
  rwa [List.length_replicate] at this

theorem claim_C10_cache_key_collision_witness :
    (pageIndexAdapter (fun l => String.mk l) true
        (generateCompletion (fun l => String.mk l) true [] c10p true
          (some "respuesta A")).2 c10q (some "respuesta B")).1 =
      "respuesta A" :=
  (claim_C10_cache_key_collision (fun l => String.mk l) c10p c10q
    (by unfold c10p c10q
        rw [take400_replicate_append, take400_replicate_append])
    [] "respuesta A" (some "respuesta B") rfl).2.2

/-! ## C7: boundary inference for tree-guided extraction -/

/-- Modelled from the spec's words, for comparison with the code: the
claimed end of a node's body extent — one line before the smallest start
line strictly greater than the node's own across the whole tree, or the
end of the file when no greater start exists. -/
def claimEnd (numLines : Nat) (allStarts : List Nat) (lineNum : Nat) : Nat :=
  match (allStarts.filter (fun s => lineNum < s)).min? with
  | some s => s - 1
  | none => numLines

theorem min?_elim_of_le (a : Nat) (l : List Nat) (h : ∀ x ∈ l, a ≤ x) :
    l.min?.elim a (min a) = a := by
  cases hm : l.min? with
  | none => rfl
  | some m =>
    have hmem : m ∈ l := List.min?_mem (fun x y => by omega) hm
    show min a m = a
    exact Nat.min_eq_left (h m hmem)

/-- On a sorted list, the first element strictly greater than `l` is the
least such element. -/
theorem find?_gt_sorted (allStarts : List Nat) (l : Nat)
    (hsort : allStarts.Sorted (· ≤ ·)) :
    allStarts.find? (fun s => l < s) =
      (allStarts.filter (fun s => l < s)).min? := by
  induction allStarts with
  | nil => rfl
  | cons a t ih =>
    rcases List.sorted_cons.mp hsort with ⟨ha, ht⟩
    by_cases h : l < a
    · rw [List.find?_cons_of_pos _ (by simpa using h),
        List.filter_cons_of_pos (by simpa using h), List.min?_cons]
      congr 1
      symm
      apply min?_elim_of_le
      intro x hx
      exact ha x (List.mem_of_mem_filter hx)
    · rw [List.find?_cons_of_neg _ (by simpa using h),
        List.filter_cons_of_neg (by simpa using h)]
      exact ih ht

/-- C7: for every selected node id with 1-based start line `l` over a
tree whose sorted start-line list is `allStarts`, the extracted slice
runs from line `l` up to (but not including) the smallest start line
strictly greater than `l` across the entire tree — so for start lines
{10, 40, 40, 90} a node starting at 40 extends up to line 90, duplicate
starts being skipped — or to the end of the file when no greater start
exists, and the extent is capped at 500 lines. -/
theorem claim_C7_boundary_inference :
    (∀ (lines : List String) (allStarts : List Nat) (l : Nat),
      allStarts.Sorted (· ≤ ·) → 1 ≤ l →
      chunkLines lines allStarts l =
        (lines.drop (l - 1)).take
          (min (claimEnd lines.length allStarts l - (l - 1)) 500)) ∧
    (∀ (lines : List String) (allStarts : List Nat) (l : Nat),
      (chunkLines lines allStarts l).length ≤ 500) ∧
    (∀ lines : List String,
      chunkLines lines [10, 40, 40, 90] 40 = (lines.drop 39).take 50) := by
  have hmain : ∀ (lines : List String) (allStarts : List Nat) (l : Nat),
      allStarts.Sorted (· ≤ ·) → 1 ≤ l →
      chunkLines lines allStarts l =
        (lines.drop (l - 1)).take
          (min (claimEnd lines.length allStarts l - (l - 1)) 500) := by
    intro lines allStarts l hsort hl
    unfold chunkLines endLineIdx firstGreater claimEnd
    rw [find?_gt_sorted allStarts l hsort]
    cases hmin : (allStarts.filter (fun s => l < s)).min? with
    | some s =>
      dsimp only
      rw [List.drop_take]
      congr 1
      by_cases hcap : s - 1 - (l - 1) > 500
      · rw [if_pos hcap]
        omega
      · rw [if_neg hcap]
        omega
    | none =>
      dsimp only
      rw [List.drop_take]
      congr 1
      by_cases hcap : lines.length - (l - 1) > 500
      · rw [if_pos hcap]
        omega
      · rw [if_neg hcap]
        omega
  refine ⟨hmain, ?_, ?_⟩
  · intro lines allStarts l
    unfold chunkLines
    dsimp only
    rw [List.drop_take]
    refine le_trans (List.length_take_le _ _) ?_
    by_cases hcap : endLineIdx lines.length allStarts l - (l - 1) > 500
    · rw [if_pos hcap]
      omega
    · rw [if_neg hcap]
      omega
  · intro lines
    unfold chunkLines endLineIdx firstGreater
    rw [show (List.find? (fun s => decide (40 < s)) [10, 40, 40, 90]) =
      some 90 from rfl]
    dsimp only
    rw [if_neg (by decide), List.drop_take]

theorem claim_C7_boundary_inference_witness :
    ([10, 40, 40, 90] : List Nat).Sorted (· ≤ ·) ∧
    chunkLines (List.replicate 100 "ln") [10, 40, 40, 90] 40 =
      ((List.replicate 100 "ln").drop 39).take 50 :=
  ⟨by decide, claim_C7_boundary_inference.2.2 (List.replicate 100 "ln")⟩

/-! ## C6: global budget truncation -/

theorem mem_of_getLast?_eq_some {α : Type} {l : List α} {a : α}
    (h : l.getLast? = some a) : a ∈ l := by
  have hmem : a ∈ l.getLast? := by rw [h]; rfl
  obtain ⟨hne, heq⟩ := List.mem_getLast?_eq_getLast hmem
  rw [heq]
  exact List.getLast_mem hne

/-- A pattern whose head differs from the replicated character never
occurs in the replicated string. -/
theorem not_prefix_replicate (m : Nat) (c d : Char) (t : List Char)
    (hd : d ≠ c) : (d :: t).isPrefixOf (List.replicate m c) = false := by
  cases m with
  | zero => rfl
  | succ k => simp [List.replicate_succ, List.isPrefixOf, hd]

theorem pyRfind_replicate_neg (n : Nat) (c d : Char) (t : List Char)
    (hd : d ≠ c) : pyRfind (List.replicate n c) (d :: t) = -1 := by
  unfold pyRfind
  have hfil : (List.range ((List.replicate n c).length + 1)).filter
      (fun i => (d :: t).isPrefixOf ((List.replicate n c).drop i)) = [] := by
    apply List.filter_eq_nil_iff.mpr
    intro i _
    rw [List.drop_replicate, not_prefix_replicate _ c d t hd]
    simp
  rw [hfil]
  rfl

/-- C6 (counterexample): a 180,001-character context consisting of a
single unbroken run exceeds the budget, yet the truncated context
handed to the language model has 180,021 characters — the code cuts the
string to the budget and then *appends* the 21-character marker, so the
final context is **not** at or below the 180,000-character budget (and
the cut is a hard mid-run cut, not a paragraph boundary). -/
theorem claim_C6_counterexample :
    (List.replicate 180001 'a').length > MAX_CONTEXT_CHARS ∧
    ¬ ((truncateContext (List.replicate 180001 'a')).length ≤
        MAX_CONTEXT_CHARS) := by
  constructor
  · rw [List.length_replicate]
    decide
  · unfold truncateContext
    rw [if_pos (by rw [List.length_replicate]; decide)]
    have h1 : (List.replicate 180001 'a').take MAX_CONTEXT_CHARS =
        List.replicate 180000 'a' := by
      rw [List.take_replicate,
        show min MAX_CONTEXT_CHARS 180001 = 180000 from by decide]
    rw [h1]
    dsimp only
    have h2 : pyRfind (List.replicate 180000 'a') "\n\n".data = -1 :=
      pyRfind_replicate_neg 180000 'a' '\n' ['\n'] (by decide)
    have h3 : pyRfind (List.replicate 180000 'a') "\n===".data = -1 :=
      pyRfind_replicate_neg 180000 'a' '\n' ['=', '=', '='] (by decide)
    rw [h2, h3]
    rw [if_neg (by decide)]
    rw [List.length_append, List.length_replicate]
    decide

/-- What a nonnegative `pyRfind` result means: the pattern occurs at
that index, and the index is within the string. -/
theorem pyRfind_spec (s sub : List Char) (i : Int) (hnonneg : 0 ≤ i)
    (heq : pyRfind s sub = i) :
    sub.isPrefixOf (s.drop i.toNat) = true ∧ i.toNat ≤ s.length := by
  unfold pyRfind at heq
  cases hg : ((List.range (s.length + 1)).filter
      (fun j => sub.isPrefixOf (s.drop j))).getLast? with
  | none =>
    rw [hg] at heq
    dsimp only at heq
    omega
  | some j =>
    rw [hg] at heq
    dsimp only at heq
    have hj : i.toNat = j := by omega
    have hmem := mem_of_getLast?_eq_some hg
    have hm := List.mem_filter.mp hmem
    have hrange : j ≤ s.length := by
      have := List.mem_range.mp hm.1
      omega
    rw [hj]
    exact ⟨hm.2, hrange⟩

/-- C6 (amended): whenever the assembled context exceeds the 180,000
character budget, the output is the marker appended to a prefix of the
context, its total length is at most the budget plus the 21-character
marker (180,021 — not the budget itself), and the pre-marker text ends
at the last paragraph (`"\n\n"`) or document-separator (`"\n==="`)
boundary only when such a boundary starts after the budget midpoint
within the budget-sized prefix; otherwise it is the hard 180,000
character cut. -/
theorem claim_C6_budget_truncation (ctx : List Char)
    (hover : ctx.length > MAX_CONTEXT_CHARS) :
    ∃ pre : List Char,
      truncateContext ctx = pre ++ TRUNC_MARKER ∧
      pre <+: ctx ∧
      (truncateContext ctx).length ≤ MAX_CONTEXT_CHARS + TRUNC_MARKER.length ∧
      ((max (pyRfind (ctx.take MAX_CONTEXT_CHARS) "\n\n".data)
            (pyRfind (ctx.take MAX_CONTEXT_CHARS) "\n===".data) >
          (MAX_CONTEXT_CHARS : Int) / 2 →
        ("\n\n".data.isPrefixOf (ctx.drop pre.length) = true ∨
         "\n===".data.isPrefixOf (ctx.drop pre.length) = true)) ∧
       (¬ (max (pyRfind (ctx.take MAX_CONTEXT_CHARS) "\n\n".data)
              (pyRfind (ctx.take MAX_CONTEXT_CHARS) "\n===".data) >
            (MAX_CONTEXT_CHARS : Int) / 2) →
        pre = ctx.take MAX_CONTEXT_CHARS)) := by
  unfold truncateContext
  rw [if_pos hover]
  dsimp only
  by_cases hb : (max (pyRfind (ctx.take MAX_CONTEXT_CHARS) "\n\n".data)
      (pyRfind (ctx.take MAX_CONTEXT_CHARS) "\n===".data) >
      (MAX_CONTEXT_CHARS : Int) / 2)
  · rw [if_pos hb]
    set lb := max (pyRfind (ctx.take MAX_CONTEXT_CHARS) "\n\n".data)
      (pyRfind (ctx.take MAX_CONTEXT_CHARS) "\n===".data) with hlb
    have hnn : (0 : Int) ≤ lb := by
      have : ((MAX_CONTEXT_CHARS : Int) / 2) ≥ 0 := by decide
      omega
    refine ⟨(ctx.take MAX_CONTEXT_CHARS).take lb.toNat, rfl, ?_, ?_, ?_, ?_⟩
    · exact (List.take_prefix _ _).trans (List.take_prefix _ _)
    · rw [List.length_append]
      have hle : ((ctx.take MAX_CONTEXT_CHARS).take lb.toNat).length ≤
          MAX_CONTEXT_CHARS := by
        rw [List.length_take, List.length_take]
        omega
      omega
    · intro _
      have hocc : "\n\n".data.isPrefixOf
            ((ctx.take MAX_CONTEXT_CHARS).drop lb.toNat) = true ∨
          "\n===".data.isPrefixOf
            ((ctx.take MAX_CONTEXT_CHARS).drop lb.toNat) = true := by
        rcases max_choice (pyRfind (ctx.take MAX_CONTEXT_CHARS) "\n\n".data)
            (pyRfind (ctx.take MAX_CONTEXT_CHARS) "\n===".data) with hc | hc
        · left
          exact (pyRfind_spec _ _ lb hnn (by rw [hlb, hc])).1
        · right
          exact (pyRfind_spec _ _ lb hnn (by rw [hlb, hc])).1
      have hlen : ((ctx.take MAX_CONTEXT_CHARS).take lb.toNat).length =
          lb.toNat := by
        rcases max_choice (pyRfind (ctx.take MAX_CONTEXT_CHARS) "\n\n".data)
            (pyRfind (ctx.take MAX_CONTEXT_CHARS) "\n===".data) with hc | hc
          <;> [skip; skip] <;>
          { have hsp := (pyRfind_spec _ _ lb hnn (by rw [hlb, hc])).2
            rw [List.length_take]
            have : (ctx.take MAX_CONTEXT_CHARS).length ≥ lb.toNat := hsp
            omega }
      rw [hlen]
      have hsub : (ctx.take MAX_CONTEXT_CHARS).drop lb.toNat <+:
          ctx.drop lb.toNat := by
        rw [List.drop_take]
        exact List.take_prefix _ _
      rcases hocc with hocc | hocc
      · left
        rw [List.isPrefixOf_iff_prefix] at hocc ⊢
        exact hocc.trans hsub
      · right
        rw [List.isPrefixOf_iff_prefix] at hocc ⊢
        exact hocc.trans hsub
    · intro hcon
      exact absurd hb hcon
  · rw [if_neg hb]
    refine ⟨ctx.take MAX_CONTEXT_CHARS, rfl, List.take_prefix _ _, ?_, ?_, ?_⟩
    · rw [List.length_append]
      have := List.length_take_le MAX_CONTEXT_CHARS ctx
      omega
    · intro hcon
      exact absurd hcon hb
    · intro _
      rfl

theorem claim_C6_budget_truncation_witness :
    (List.replicate 180001 'a').length > MAX_CONTEXT_CHARS ∧
    ∃ pre : List Char,
      truncateContext (List.replicate 180001 'a') = pre ++ TRUNC_MARKER ∧
      pre <+: List.replicate 180001 'a' ∧
      (truncateContext (List.replicate 180001 'a')).length ≤
        MAX_CONTEXT_CHARS + TRUNC_MARKER.length := by
  have hover : (List.replicate 180001 'a').length > MAX_CONTEXT_CHARS := by
    rw [List.length_replicate]
    decide
  obtain ⟨pre, h1, h2, h3, _⟩ :=
    claim_C6_budget_truncation (List.replicate 180001 'a') hover
  exact ⟨hover, pre, h1, h2, h3⟩

end Gomas
